import Mathlib

set_option maxRecDepth 100000
set_option maxHeartbeats 1000000

/-!
Shallow embedding of `microshard-uuid` (`src/implementations/rust/src/lib.rs`)
over `Nat`/`Int`, together with proofs of the specification claims.

Modelling conventions:
* Rust machine integers (`u32`, `u64`, `u128`) are modelled as `Nat`; wherever the
  source narrows a value (an `as` cast, a wrapping shift or multiplication) the
  model applies the corresponding `% 2^w` explicitly.  Where a Rust operation
  cannot overflow for the values its callers can supply, the model carries no
  mask and the surrounding theorems keep the corresponding bound hypotheses.
* Rust signed integers (`i32`, `i64`) are modelled as `Int`; Rust `/` and `%`
  truncate toward zero, which is `Int.tdiv` / `Int.tmod` (Lean's `/` on `Int`
  is euclidean and differs on negative operands, so it is not used).
* Rust strings are modelled as their UTF-8 byte sequences, `List Nat`.
  A Rust `str` slice `s[a..b]` panics when `a`/`b` are out of order, out of
  bounds, or not on a character boundary; `sliceStr` returns `none` in exactly
  those cases, and every function that can reach a slice returns
  `Option (...)`, `none` modelling a panic.  On valid UTF-8, position `i` is a
  character boundary iff `i` is the length or byte `i` is not a continuation
  byte (`0x80..0xBF`), which is what Rust's `is_char_boundary` tests.
* The entropy draw inside `build` (`rng.next_u64()`) is passed in as an
  explicit `rnd` parameter, and the clock readings feeding `generate` and
  `SimpleRng::new` are likewise parameters, so all functions are pure.
-/

namespace MicroShard

/-! ### Constants (lib.rs lines 8-10) -/

def MAX_SHARD_ID : Nat := 4294967295
def MAX_TIME_MICROS : Nat := 18014398509481983
def MAX_RANDOM : Nat := 68719476735

/-! ### Error type (lib.rs lines 18-26) -/

inductive MicroShardError where
  | InvalidShardId (id : Nat)
  | TimeOverflow
  | InvalidIsoFormat
  | SystemTimeError
  | InvalidVersion (v : Nat)
  | InvalidVariant (v : Nat)
deriving DecidableEq

/-! ### The identifier newtype (lib.rs line 56): a `u128` wrapper.
The derived `Ord`/`PartialOrd` compare the underlying `u128`, i.e. `val`. -/

structure MicroShardUUID where
  val : Nat
deriving DecidableEq

/-! ### PRNG (lib.rs lines 251-312), Xorshift64*.

`SimpleRng::new` mixes a nanosecond clock reading (`u128`, truncated by
`as u64`) with a stack address cast to `u64`; both are parameters here. -/

structure SimpleRng where
  state : Nat
deriving DecidableEq

def SimpleRng.new (nanos ptr : Nat) : SimpleRng :=
  let state := (nanos % 2^64) ^^^ (ptr % 2^64)
  if state = 0 then { state := 0xCAFEBABE } else { state := state }

/-- `SimpleRng::next_u64`: three xorshift steps update the state, then the
output is the state multiplied (wrapping) by the Xorshift64* constant.
Returns (output, updated generator). -/
def SimpleRng.next_u64 (rng : SimpleRng) : Nat × SimpleRng :=
  let x0 := rng.state
  let x1 := x0 ^^^ (x0 >>> 12)
  let x2 := x1 ^^^ ((x1 <<< 25) % 2^64)
  let x3 := x2 ^^^ (x2 >>> 27)
  (x3 * 0x2545F4914F6CDD1D % 2^64, { state := x3 })

/-! ### Shard validation (lib.rs lines 319-324) -/

def validate_shard (shard_id : Nat) : Except MicroShardError Unit :=
  if shard_id > MAX_SHARD_ID then .error (.InvalidShardId MAX_SHARD_ID) else .ok ()

/-! ### Calendar math (lib.rs lines 424-456) -/

/-- `days_from_civil` (lib.rs 424-428): days from year 0 to the start of year
`y`, via the completed-years closed form.  `i64` division truncates. -/
def days_from_civil (y : Int) : Int :=
  let y1 := y - 1
  y1 * 365 + Int.tdiv y1 4 - Int.tdiv y1 100 + Int.tdiv y1 400

def DAYS_BEFORE : List Int := [0, 31, 59, 90, 120, 151, 181, 212, 243, 273, 304, 334]

def is_leap (year : Int) : Bool :=
  (Int.tmod year 4 == 0 && Int.tmod year 100 != 0) || Int.tmod year 400 == 0

/-- `date_to_days` (lib.rs 431-452).  Callers only invoke it with a validated
month `1..=12`; the `getD` default is unreachable there. -/
def date_to_days (y : Int) (m d : Nat) : Int :=
  let days0 := days_from_civil y
  let days1 := days0 - 719162
  let days2 := days1 + DAYS_BEFORE.getD (m - 1) 0
  let days3 := days2 + (if 2 < m ∧ is_leap y then 1 else 0)
  days3 + ((d : Int) - 1)

/-- `unix_to_civil` (lib.rs 464-537): Howard Hinnant's `civil_from_days`,
plus the clock fields.  All the `u32` subtractions are mathematically
non-underflowing for every input (established by the theorems below), so
`Nat` subtraction coincides with the Rust `u32` arithmetic.  The
`(z - era*146097) as u32` cast always sees a value in `0..=146096`. -/
def unix_to_civil (ts : Nat) : Int × Nat × Nat × Nat × Nat × Nat :=
  let days := ts / 86400
  let rem_sec := ts % 86400
  let hour := rem_sec / 3600
  let min := rem_sec % 3600 / 60
  let sec := rem_sec % 60
  let z : Int := (days : Int) + 719468
  let era := Int.tdiv (if 0 ≤ z then z else z - 146096) 146097
  let doe := (z - era * 146097).toNat
  let yoe := (doe - doe / 1460 + doe / 36524 - doe / 146096) / 365
  let y : Int := (yoe : Int) + era * 400
  let doy := doe - (365 * yoe + yoe / 4 - yoe / 100)
  let mp := (5 * doy + 2) / 153
  let d := doy - (153 * mp + 2) / 5 + 1
  let m := if mp < 10 then mp + 3 else mp - 9
  let y2 := y + (if m ≤ 2 then 1 else 0)
  (y2, m, d, hour, min, sec)

/-! ### ISO-8601 parsing (lib.rs 332-420) -/

/-- Rust `str::is_char_boundary` at the byte level: true at the end of the
string, or when the byte there is not a UTF-8 continuation byte. -/
def isCharBoundary (s : List Nat) (i : Nat) : Bool :=
  decide (i = s.length ∨ (i < s.length ∧ (s.getD i 0 < 128 ∨ 192 ≤ s.getD i 0)))

/-- Rust `&s[a..b]`: `none` models the panic on a reversed, out-of-bounds or
non-boundary range. -/
def sliceStr (s : List Nat) (a b : Nat) : Option (List Nat) :=
  if a ≤ b ∧ b ≤ s.length ∧ isCharBoundary s a = true ∧ isCharBoundary s b = true
  then some ((s.drop a).take (b - a)) else none

/-- One pass of Rust's `from_str_radix` digit loop (radix 10): every byte must
be an ASCII digit, accumulating `acc * 10 + digit`.  (The group slices fed to
it here are at most 4 digits, so the `u32`/`i32` overflow branch of the Rust
implementation is unreachable and is not modelled.) -/
def digitsVal : List Nat → Nat → Option Nat
  | [], acc => some acc
  | b :: rest, acc =>
    if 48 ≤ b ∧ b ≤ 57 then digitsVal rest (acc * 10 + (b - 48)) else none

/-- Rust `str::parse::<u32>`: an optional leading `+`, then one or more
digits.  A leading `-` or any other non-digit byte fails. -/
def parseU32Bytes (s : List Nat) : Option Nat :=
  match s with
  | [] => none
  | 43 :: rest => if rest.isEmpty then none else digitsVal rest 0
  | _ => digitsVal s 0

/-- Rust `str::parse::<i32>`: an optional leading `+` or `-`, then one or
more digits. -/
def parseI32Bytes (s : List Nat) : Option Int :=
  match s with
  | [] => none
  | 43 :: rest => if rest.isEmpty then none else (digitsVal rest 0).map (fun n => (n : Int))
  | 45 :: rest => if rest.isEmpty then none else (digitsVal rest 0).map (fun n => -(n : Int))
  | _ => (digitsVal s 0).map (fun n => (n : Int))

/-- The fractional-seconds loop of `parse_iso_strict` (lib.rs 395-406):
every character must be a digit; only the first six digits contribute, via
the decreasing multiplier.  A multi-byte (non-ASCII) character decodes to a
char that is not a digit, so at the byte level the first byte of such a
character fails the digit test exactly when Rust's `to_digit` fails. -/
def fracLoop : List Nat → Nat → Nat → Option Nat
  | [], micros, _ => some micros
  | b :: rest, micros, mult =>
    if 48 ≤ b ∧ b ≤ 57 then
      if 1 ≤ mult then fracLoop rest (micros + (b - 48) * mult) (mult / 10)
      else fracLoop rest micros mult
    else none

/-- `parse_iso_strict` (lib.rs 332-420) on the UTF-8 bytes of the input.
`none` models a panic (only reachable from a slice whose end is not a
character boundary); `some (.error e)` a returned error; `some (.ok n)` the
parsed microsecond count.  The final multiplications cannot overflow `u64`
for any input the validation admits (year ≤ 9999). -/
def parse_iso_strict (s : List Nat) : Option (Except MicroShardError Nat) :=
  if s.length < 20 then some (.error .InvalidIsoFormat) else
  if ¬(s.getD 4 0 = 45 ∧ s.getD 7 0 = 45 ∧ s.getD 10 0 = 84 ∧
       s.getD 13 0 = 58 ∧ s.getD 16 0 = 58) then some (.error .InvalidIsoFormat) else
  match sliceStr s 0 4 with
  | none => none
  | some ys =>
  match parseI32Bytes ys with
  | none => some (.error .InvalidIsoFormat)
  | some year =>
  match sliceStr s 5 7 with
  | none => none
  | some ms =>
  match parseU32Bytes ms with
  | none => some (.error .InvalidIsoFormat)
  | some month =>
  match sliceStr s 8 10 with
  | none => none
  | some ds =>
  match parseU32Bytes ds with
  | none => some (.error .InvalidIsoFormat)
  | some day =>
  match sliceStr s 11 13 with
  | none => none
  | some hs =>
  match parseU32Bytes hs with
  | none => some (.error .InvalidIsoFormat)
  | some hour =>
  match sliceStr s 14 16 with
  | none => none
  | some mins =>
  match parseU32Bytes mins with
  | none => some (.error .InvalidIsoFormat)
  | some min =>
  match sliceStr s 17 19 with
  | none => none
  | some ss =>
  match parseU32Bytes ss with
  | none => some (.error .InvalidIsoFormat)
  | some sec =>
  if month < 1 ∨ 12 < month then some (.error .InvalidIsoFormat) else
  if 23 < hour ∨ 59 < min ∨ 60 < sec then some (.error .InvalidIsoFormat) else
  let days_in_month :=
    if month = 4 ∨ month = 6 ∨ month = 9 ∨ month = 11 then 30
    else if month = 2 then (if is_leap year then 29 else 28)
    else 31
  if day < 1 ∨ days_in_month < day then some (.error .InvalidIsoFormat) else
  let fracRes : Option (Except MicroShardError Nat) :=
    if 20 < s.length then
      if s.getD 19 0 ≠ 46 then some (.error .InvalidIsoFormat)
      else
        let e := (s.findIdx? (fun b => b == 90)).getD s.length
        match sliceStr s 20 e with
        | none => none
        | some frac =>
          match fracLoop frac 0 100000 with
          | none => some (.error .InvalidIsoFormat)
          | some m => some (.ok m)
    else some (.ok 0)
  match fracRes with
  | none => none
  | some (.error e) => some (.error e)
  | some (.ok micros) =>
    let days_since_epoch := date_to_days year month day
    if days_since_epoch < 0 then some (.error .InvalidIsoFormat)
    else some (.ok ((days_since_epoch.toNat * 86400 + hour * 3600 + min * 60 + sec)
                      * 1000000 + micros))

/-! ### Formatting (lib.rs 175-187) -/

/-- Decimal digits of `n`, most significant first, by repeated division as in
Rust's integer `Display`.  The first argument is recursion fuel; `n` itself
is always enough fuel, see `natDigits`. -/
def natDigitsAux : Nat → Nat → List Nat
  | 0, n => [n % 10]
  | fuel+1, n => if n < 10 then [n] else natDigitsAux fuel (n / 10) ++ [n % 10]

def natDigits (n : Nat) : List Nat := natDigitsAux n n

/-- Rust's `{:0w}` zero-padded formatting of a nonnegative integer, as ASCII
bytes: the decimal digits, left-padded with `'0'` to a minimum width. -/
def padNum (w n : Nat) : List Nat :=
  let ds := natDigits n
  List.replicate (w - ds.length) 48 ++ ds.map (fun d => 48 + d)

/-! ### Bit packing (lib.rs 194-219) and the codec API -/

/-- `MicroShardUUID::build` with the entropy draw (`rng.next_u64()`) passed
in as `rnd`.  For `micros ≤ 2^54-1`, `shard_id < 2^32` and any `rnd`, none of
the `u64` shifts can overflow, so no wrap-around masks are needed beyond the
ones written in the source. -/
def build (micros shard_id rnd : Nat) : Except MicroShardError MicroShardUUID :=
  if micros > MAX_TIME_MICROS then .error .TimeOverflow
  else
    let rnd_val := rnd &&& MAX_RANDOM
    let shard_id_64 := shard_id
    let time_high := (micros >>> 6) &&& 0xFFFFFFFFFFFF
    let time_low := micros &&& 0x3F
    let shard_high := (shard_id_64 >>> 26) &&& 0x3F
    let high_64 := (time_high <<< 16) ||| (8 <<< 12) ||| (time_low <<< 6) ||| shard_high
    let shard_low := shard_id_64 &&& 0x3FFFFFF
    let low_64 := (2 <<< 62) ||| (shard_low <<< 36) ||| rnd_val
    .ok ⟨(high_64 <<< 64) ||| low_64⟩

/-- `MicroShardUUID::generate` with the wall-clock microsecond reading passed
in (`as_micros() as u64` truncates the `u128` microsecond count). -/
def generate (shard_id clock_micros rnd : Nat) : Except MicroShardError MicroShardUUID :=
  match validate_shard shard_id with
  | .error e => .error e
  | .ok _ => build (clock_micros % 2^64) shard_id rnd

def from_micros (micros shard_id rnd : Nat) : Except MicroShardError MicroShardUUID :=
  match validate_shard shard_id with
  | .error e => .error e
  | .ok _ => build micros shard_id rnd

/-- `MicroShardUUID::from_iso`: validate the shard, parse, build. -/
def from_iso (s : List Nat) (shard_id rnd : Nat) :
    Option (Except MicroShardError MicroShardUUID) :=
  match validate_shard shard_id with
  | .error e => some (.error e)
  | .ok _ =>
    match parse_iso_strict s with
    | none => none
    | some (.error e) => some (.error e)
    | some (.ok micros) => some (build micros shard_id rnd)

/-- `MicroShardUUID::from_u128` (lib.rs 99-120): strict version/variant
validation. -/
def from_u128 (v : Nat) : Except MicroShardError MicroShardUUID :=
  let version := (v >>> 76) &&& 0xF
  if version ≠ 8 then .error (.InvalidVersion version)
  else
    let variant := (v >>> 62) &&& 0x3
    if variant ≠ 2 then .error (.InvalidVariant variant)
    else .ok ⟨v⟩

/-- `u128::from_be_bytes` on a 16-byte big-endian list. -/
def u128_from_be_bytes (bs : List Nat) : Nat :=
  bs.foldl (fun acc b => acc * 256 + b) 0

def from_bytes (bs : List Nat) : Except MicroShardError MicroShardUUID :=
  from_u128 (u128_from_be_bytes bs)

def MicroShardUUID.as_u128 (u : MicroShardUUID) : Nat := u.val

/-- `u128::to_be_bytes`: the 16 bytes of `val`, most significant first. -/
def MicroShardUUID.as_bytes (u : MicroShardUUID) : List Nat :=
  [(u.val >>> 120) % 256, (u.val >>> 112) % 256, (u.val >>> 104) % 256, (u.val >>> 96) % 256,
   (u.val >>> 88) % 256, (u.val >>> 80) % 256, (u.val >>> 72) % 256, (u.val >>> 64) % 256,
   (u.val >>> 56) % 256, (u.val >>> 48) % 256, (u.val >>> 40) % 256, (u.val >>> 32) % 256,
   (u.val >>> 24) % 256, (u.val >>> 16) % 256, (u.val >>> 8) % 256, u.val % 256]

/-- `MicroShardUUID::shard_id` (lib.rs 145-160). -/
def MicroShardUUID.shard_id (u : MicroShardUUID) : Nat :=
  let high := (u.val >>> 64) % 2^64
  let low := u.val % 2^64
  let shard_high := high &&& 0x3F
  let shard_low := (low >>> 36) &&& 0x3FFFFFF
  ((shard_high <<< 26) ||| shard_low) % 2^32

/-- `MicroShardUUID::timestamp_micros` (lib.rs 163-171). -/
def MicroShardUUID.timestamp_micros (u : MicroShardUUID) : Nat :=
  let high := (u.val >>> 64) % 2^64
  let time_high := (high >>> 16) &&& 0xFFFFFFFFFFFF
  let time_low := (high >>> 6) &&& 0x3F
  (time_high <<< 6) ||| time_low

/-- `MicroShardUUID::to_iso_string` (lib.rs 175-187), as UTF-8 bytes.
`unix_to_civil` of a nonnegative second count always yields a year
`≥ 1970`, so formatting the year via its `toNat` matches `{:04}`. -/
def MicroShardUUID.to_iso_string (u : MicroShardUUID) : List Nat :=
  let total_micros := u.timestamp_micros
  let seconds := total_micros / 1000000
  let micros := total_micros % 1000000
  match unix_to_civil seconds with
  | (year, month, day, hour, min, sec) =>
    padNum 4 year.toNat ++ [45] ++ padNum 2 month ++ [45] ++ padNum 2 day ++ [84] ++
    padNum 2 hour ++ [58] ++ padNum 2 min ++ [58] ++ padNum 2 sec ++ [46] ++
    padNum 6 micros ++ [90]

/-! ## Bitwise-to-arithmetic bridge lemmas -/

theorem lor_eq_add (a b : Nat) (k : Nat) (ha : 2^k ∣ a) (hb : b < 2^k) :
    a ||| b = a + b := by
  obtain ⟨c, rfl⟩ := ha
  exact (Nat.mul_add_lt_is_or hb c).symm

theorem and_mask_eq_mod (x n : Nat) : x &&& (2^n - 1) = x % 2^n :=
  Nat.and_pow_two_sub_one_eq_mod x n

/-- Arithmetic normal form of the 128-bit packed value produced by `build`. -/
def packVal (micros shard rnd : Nat) : Nat :=
  (micros / 2^6 * 2^16 + 8 * 2^12 + micros % 2^6 * 2^6 + shard / 2^26 % 2^6) * 2^64
    + (2^63 + shard % 2^26 * 2^36 + rnd % 2^36)

/-- The or-chain written by `build`, on disjoint operands, is plain addition. -/
theorem pack_or_eq (tH tL sH sL rv : Nat) (h1 : tL < 2^6) (h2 : sH < 2^6)
    (h3 : sL < 2^26) (h4 : rv < 2^36) :
    (tH <<< 16 ||| 8 <<< 12 ||| tL <<< 6 ||| sH) <<< 64 |||
      (2 <<< 62 ||| sL <<< 36 ||| rv)
      = (tH * 2^16 + 8 * 2^12 + tL * 2^6 + sH) * 2^64 + (2^63 + sL * 2^36 + rv) := by
  have hh1 : tH <<< 16 ||| 8 <<< 12 = tH * 2^16 + 8 * 2^12 := by
    rw [Nat.shiftLeft_eq, Nat.shiftLeft_eq]
    exact lor_eq_add _ _ 16 ⟨tH, by ring⟩ (by norm_num)
  have hh2 : tH * 2^16 + 8 * 2^12 ||| tL <<< 6 = tH * 2^16 + 8 * 2^12 + tL * 2^6 := by
    rw [Nat.shiftLeft_eq]
    exact lor_eq_add _ _ 12 ⟨tH * 2^4 + 8, by ring⟩ (by omega)
  have hh3 : tH * 2^16 + 8 * 2^12 + tL * 2^6 ||| sH
      = tH * 2^16 + 8 * 2^12 + tL * 2^6 + sH := by
    exact lor_eq_add _ _ 6 ⟨tH * 2^10 + 8 * 2^6 + tL, by ring⟩ (by omega)
  have hl1 : 2 <<< 62 ||| sL <<< 36 = 2^63 + sL * 2^36 := by
    rw [Nat.shiftLeft_eq, Nat.shiftLeft_eq]
    have : (2 : Nat) * 2^62 = 2^63 := by norm_num
    rw [← this]
    exact lor_eq_add _ _ 62 ⟨2, by ring⟩ (by omega)
  have hl2 : 2^63 + sL * 2^36 ||| rv = 2^63 + sL * 2^36 + rv := by
    exact lor_eq_add _ _ 36 ⟨2^27 + sL, by ring⟩ (by omega)
  rw [hh1, hh2, hh3, hl1, hl2, Nat.shiftLeft_eq]
  exact lor_eq_add _ _ 64 ⟨tH * 2^16 + 8 * 2^12 + tL * 2^6 + sH, by ring⟩ (by omega)

theorem build_eq_packVal (micros shard rnd : Nat) (hm : micros ≤ MAX_TIME_MICROS) :
    build micros shard rnd = .ok ⟨packVal micros shard rnd⟩ := by
  have hm' : ¬ micros > MAX_TIME_MICROS := by omega
  have hmb : micros < 2^54 := by
    have h : MAX_TIME_MICROS = 2^54 - 1 := by norm_num [MAX_TIME_MICROS]
    omega
  have c1 : micros >>> 6 &&& 0xFFFFFFFFFFFF = micros / 2^6 := by
    rw [show (0xFFFFFFFFFFFF : Nat) = 2^48 - 1 by norm_num, and_mask_eq_mod,
        Nat.shiftRight_eq_div_pow]
    exact Nat.mod_eq_of_lt (by omega)
  have c2 : micros &&& 0x3F = micros % 2^6 := by
    rw [show (0x3F : Nat) = 2^6 - 1 by norm_num, and_mask_eq_mod]
  have c3 : shard >>> 26 &&& 0x3F = shard / 2^26 % 2^6 := by
    rw [show (0x3F : Nat) = 2^6 - 1 by norm_num, and_mask_eq_mod,
        Nat.shiftRight_eq_div_pow]
  have c4 : shard &&& 0x3FFFFFF = shard % 2^26 := by
    rw [show (0x3FFFFFF : Nat) = 2^26 - 1 by norm_num, and_mask_eq_mod]
  have c5 : rnd &&& MAX_RANDOM = rnd % 2^36 := by
    rw [show MAX_RANDOM = 2^36 - 1 by norm_num [MAX_RANDOM], and_mask_eq_mod]
  simp only [build]
  rw [if_neg hm']
  refine congrArg (fun v : Nat => (Except.ok ⟨v⟩ : Except MicroShardError MicroShardUUID)) ?_
  rw [c1, c2, c3, c4, c5]
  rw [pack_or_eq (micros / 2^6) (micros % 2^6) (shard / 2^26 % 2^6) (shard % 2^26)
        (rnd % 2^36) (Nat.mod_lt _ (by norm_num)) (Nat.mod_lt _ (by norm_num))
        (Nat.mod_lt _ (by norm_num)) (Nat.mod_lt _ (by norm_num))]
  unfold packVal
  ring

theorem timestamp_packVal (micros shard rnd : Nat) (hm : micros ≤ MAX_TIME_MICROS) :
    (MicroShardUUID.mk (packVal micros shard rnd)).timestamp_micros = micros := by
  have hmb : micros < 2^54 := by
    have h : MAX_TIME_MICROS = 2^54 - 1 := by norm_num [MAX_TIME_MICROS]
    omega
  have d1 : ∀ x : Nat, x &&& 0xFFFFFFFFFFFF = x % 2^48 := fun x => by
    rw [show (0xFFFFFFFFFFFF : Nat) = 2^48 - 1 by norm_num, and_mask_eq_mod]
  have d2 : ∀ x : Nat, x &&& 0x3F = x % 2^6 := fun x => by
    rw [show (0x3F : Nat) = 2^6 - 1 by norm_num, and_mask_eq_mod]
  simp only [MicroShardUUID.timestamp_micros]
  rw [d1, d2, Nat.shiftRight_eq_div_pow, Nat.shiftRight_eq_div_pow,
      Nat.shiftRight_eq_div_pow, Nat.shiftLeft_eq]
  rw [lor_eq_add _ _ 6 ⟨_, by ring⟩ (Nat.mod_lt _ (by norm_num))]
  unfold packVal
  omega

theorem shard_packVal (micros shard rnd : Nat) (hs : shard < 2^32) :
    (MicroShardUUID.mk (packVal micros shard rnd)).shard_id = shard := by
  have d2 : ∀ x : Nat, x &&& 0x3F = x % 2^6 := fun x => by
    rw [show (0x3F : Nat) = 2^6 - 1 by norm_num, and_mask_eq_mod]
  have d3 : ∀ x : Nat, x &&& 0x3FFFFFF = x % 2^26 := fun x => by
    rw [show (0x3FFFFFF : Nat) = 2^26 - 1 by norm_num, and_mask_eq_mod]
  simp only [MicroShardUUID.shard_id]
  rw [d2, d3, Nat.shiftRight_eq_div_pow, Nat.shiftRight_eq_div_pow, Nat.shiftLeft_eq]
  rw [lor_eq_add _ _ 26 ⟨_, by ring⟩ (Nat.mod_lt _ (by norm_num))]
  unfold packVal
  omega

theorem validate_shard_ok (shard : Nat) (hs : shard ≤ MAX_SHARD_ID) :
    validate_shard shard = .ok () := by
  unfold validate_shard
  rw [if_neg (by omega)]

/-- C1: for every `micros` in `[0, 2^54-1]`, every `shard` in `[0, 2^32-1]`
and every value of the random draw, `build` (and hence `from_micros`)
succeeds, and `timestamp_micros`/`shard_id` read back exactly the inputs. -/
theorem from_micros_roundtrip (micros shard rnd : Nat) (hm : micros ≤ 2^54 - 1)
    (hs : shard ≤ 2^32 - 1) :
    ∃ u : MicroShardUUID,
      build micros shard rnd = .ok u ∧ from_micros micros shard rnd = .ok u ∧
      u.timestamp_micros = micros ∧ u.shard_id = shard := by
  have hm' : micros ≤ MAX_TIME_MICROS := by
    have h : MAX_TIME_MICROS = 2^54 - 1 := by norm_num [MAX_TIME_MICROS]
    omega
  have hsh : MAX_SHARD_ID = 2^32 - 1 := by norm_num [MAX_SHARD_ID]
  have hv : validate_shard shard = .ok () := validate_shard_ok shard (by omega)
  refine ⟨⟨packVal micros shard rnd⟩, build_eq_packVal _ _ _ hm', ?_,
    timestamp_packVal _ _ _ hm', shard_packVal _ _ _ (by omega)⟩
  simp only [from_micros, hv]
  exact build_eq_packVal _ _ _ hm'

theorem from_micros_roundtrip_witness :
    ∃ u : MicroShardUUID,
      build 1765503300123456 12345 987654321 = .ok u ∧
      from_micros 1765503300123456 12345 987654321 = .ok u ∧
      u.timestamp_micros = 1765503300123456 ∧ u.shard_id = 12345 :=
  from_micros_roundtrip 1765503300123456 12345 987654321 (by norm_num) (by norm_num)

/-- C3: identifiers built at a strictly earlier microsecond timestamp are
strictly smaller in the raw 128-bit magnitude (which is what the derived
`Ord` of the `u128` newtype compares), regardless of shard ids and random
draws. -/
theorem build_strictMono_in_time (t1 t2 s1 s2 r1 r2 : Nat)
    (h2 : t2 ≤ 2^54 - 1) (hlt : t1 < t2) (u1 u2 : MicroShardUUID)
    (hb1 : build t1 s1 r1 = .ok u1) (hb2 : build t2 s2 r2 = .ok u2) :
    u1.val < u2.val := by
  have hm2 : t2 ≤ MAX_TIME_MICROS := by
    have h : MAX_TIME_MICROS = 2^54 - 1 := by norm_num [MAX_TIME_MICROS]
    omega
  have hm1 : t1 ≤ MAX_TIME_MICROS := by omega
  have e1 := (build_eq_packVal t1 s1 r1 hm1).symm.trans hb1
  have e2 := (build_eq_packVal t2 s2 r2 hm2).symm.trans hb2
  have v1 : u1.val = packVal t1 s1 r1 := by
    cases Except.ok.inj e1; rfl
  have v2 : u2.val = packVal t2 s2 r2 := by
    cases Except.ok.inj e2; rfl
  rw [v1, v2]
  unfold packVal
  have hd : t1 / 2^6 ≤ t2 / 2^6 := Nat.div_le_div_right (by omega)
  omega

theorem build_strictMono_in_time_witness :
    (MicroShardUUID.mk (packVal 1000 4294967295 999)).val <
      (MicroShardUUID.mk (packVal 1001 0 0)).val :=
  build_strictMono_in_time 1000 1001 4294967295 0 999 0 (by norm_num) (by norm_num)
    _ _ (by rfl) (by rfl)

/-- C7: `build (2^54 - 1) shard` succeeds for every shard, while `build`
of `2^54` or any larger microsecond count fails with exactly `TimeOverflow`. -/
theorem build_overflow_boundary (shard rnd : Nat) :
    (∃ u, build (2^54 - 1) shard rnd = .ok u) ∧
    (∀ micros, 2^54 ≤ micros → build micros shard rnd = .error .TimeOverflow) := by
  constructor
  · exact ⟨_, build_eq_packVal _ _ _ (by norm_num [MAX_TIME_MICROS])⟩
  · intro micros hm
    unfold build
    rw [if_pos (by norm_num [MAX_TIME_MICROS]; omega)]

theorem build_overflow_boundary_witness :
    (∃ u, build (2^54 - 1) 7 3 = .ok u) ∧
    build (2^54) 7 3 = .error .TimeOverflow :=
  ⟨(build_overflow_boundary 7 3).1, (build_overflow_boundary 7 3).2 (2^54) (le_refl _)⟩

/-- Inversion for a successful `build`: the bound must have held and the
value is the packed normal form. -/
theorem build_ok_inv (m s r : Nat) (u : MicroShardUUID) (h : build m s r = .ok u) :
    m ≤ MAX_TIME_MICROS ∧ u = ⟨packVal m s r⟩ := by
  by_cases hm : m > MAX_TIME_MICROS
  · unfold build at h
    rw [if_pos hm] at h
    exact absurd h (by simp)
  · refine ⟨by omega, ?_⟩
    rw [build_eq_packVal m s r (by omega)] at h
    exact (Except.ok.inj h).symm

theorem packVal_lt (m s r : Nat) (hm : m ≤ MAX_TIME_MICROS) :
    packVal m s r < 2^128 := by
  have hmb : m < 2^54 := by
    have h : MAX_TIME_MICROS = 2^54 - 1 := by norm_num [MAX_TIME_MICROS]
    omega
  unfold packVal
  have h1 : m / 2^6 < 2^48 := by omega
  have h2 : m % 2^6 < 2^6 := Nat.mod_lt _ (by norm_num)
  have h3 : s / 2^26 % 2^6 < 2^6 := Nat.mod_lt _ (by norm_num)
  have h4 : s % 2^26 < 2^26 := Nat.mod_lt _ (by norm_num)
  have h5 : r % 2^36 < 2^36 := Nat.mod_lt _ (by norm_num)
  omega

theorem packVal_version (m s r : Nat) (hm : m ≤ MAX_TIME_MICROS) :
    packVal m s r / 2^76 % 2^4 = 8 := by
  have hmb : m < 2^54 := by
    have h : MAX_TIME_MICROS = 2^54 - 1 := by norm_num [MAX_TIME_MICROS]
    omega
  unfold packVal
  have h2 : m % 2^6 < 2^6 := Nat.mod_lt _ (by norm_num)
  have h3 : s / 2^26 % 2^6 < 2^6 := Nat.mod_lt _ (by norm_num)
  have h4 : s % 2^26 < 2^26 := Nat.mod_lt _ (by norm_num)
  have h5 : r % 2^36 < 2^36 := Nat.mod_lt _ (by norm_num)
  omega

theorem packVal_variant (m s r : Nat) :
    packVal m s r / 2^62 % 2^2 = 2 := by
  unfold packVal
  have h4 : s % 2^26 < 2^26 := Nat.mod_lt _ (by norm_num)
  have h5 : r % 2^36 < 2^36 := Nat.mod_lt _ (by norm_num)
  omega

theorem version_field_eq (v : Nat) : (v >>> 76) &&& 0xF = v / 2^76 % 2^4 := by
  rw [show (0xF : Nat) = 2^4 - 1 by norm_num, and_mask_eq_mod, Nat.shiftRight_eq_div_pow]

theorem variant_field_eq (v : Nat) : (v >>> 62) &&& 0x3 = v / 2^62 % 2^2 := by
  rw [show (0x3 : Nat) = 2^2 - 1 by norm_num, and_mask_eq_mod, Nat.shiftRight_eq_div_pow]

/-- C6: `from_u128` accepts exactly the values whose version nibble
(bits 76-79) is 8 and variant bits (62-63) are 2; on failure it reports the
offending observed field, and `from_bytes` is `from_u128` of the big-endian
byte value. -/
theorem from_u128_marker_validation (v : Nat) :
    (from_u128 v = .ok ⟨v⟩ ↔ v / 2^76 % 2^4 = 8 ∧ v / 2^62 % 2^2 = 2) ∧
    (v / 2^76 % 2^4 ≠ 8 → from_u128 v = .error (.InvalidVersion (v / 2^76 % 2^4))) ∧
    (v / 2^76 % 2^4 = 8 → v / 2^62 % 2^2 ≠ 2 →
      from_u128 v = .error (.InvalidVariant (v / 2^62 % 2^2))) ∧
    (∀ bs : List Nat, from_bytes bs = from_u128 (u128_from_be_bytes bs)) := by
  have hu : from_u128 v =
      (if v / 2^76 % 2^4 ≠ 8 then .error (.InvalidVersion (v / 2^76 % 2^4))
       else if v / 2^62 % 2^2 ≠ 2 then .error (.InvalidVariant (v / 2^62 % 2^2))
       else .ok ⟨v⟩) := by
    simp only [from_u128, version_field_eq, variant_field_eq]
  refine ⟨?_, ?_, ?_, fun bs => rfl⟩
  · constructor
    · intro h
      rw [hu] at h
      by_cases h8 : v / 2^76 % 2^4 = 8
      · by_cases h2 : v / 2^62 % 2^2 = 2
        · exact ⟨h8, h2⟩
        · rw [if_neg (by simpa using h8), if_pos h2] at h
          exact absurd h (by simp)
      · rw [if_pos h8] at h
        exact absurd h (by simp)
    · rintro ⟨h8, h2⟩
      rw [hu, if_neg (by simpa using h8), if_neg (by simpa using h2)]
  · intro h8
    rw [hu, if_pos h8]
  · intro h8 h2
    rw [hu, if_neg (by simpa using h8), if_pos h2]

theorem from_u128_marker_validation_witness :
    (from_u128 (packVal 0 0 0) = .ok ⟨packVal 0 0 0⟩ ↔
      packVal 0 0 0 / 2^76 % 2^4 = 8 ∧ packVal 0 0 0 / 2^62 % 2^2 = 2) ∧
    (packVal 0 0 0 / 2^76 % 2^4 ≠ 8 →
      from_u128 (packVal 0 0 0) = .error (.InvalidVersion (packVal 0 0 0 / 2^76 % 2^4))) ∧
    (packVal 0 0 0 / 2^76 % 2^4 = 8 → packVal 0 0 0 / 2^62 % 2^2 ≠ 2 →
      from_u128 (packVal 0 0 0) = .error (.InvalidVariant (packVal 0 0 0 / 2^62 % 2^2))) ∧
    (∀ bs : List Nat, from_bytes bs = from_u128 (u128_from_be_bytes bs)) :=
  from_u128_marker_validation (packVal 0 0 0)

/-- Recomposing the 16 big-endian bytes of a value below `2^128` gives the
value back. -/
theorem u128_bytes_roundtrip (v : Nat) (hv : v < 2^128) :
    u128_from_be_bytes (MicroShardUUID.as_bytes ⟨v⟩) = v := by
  have step : ∀ a b : Nat, a = b + 8 → v / 2^a * 256 + v / 2^b % 256 = v / 2^b := by
    intro a b hab
    subst hab
    have h1 : v / 2^(b+8) = v / 2^b / 256 := by
      rw [Nat.div_div_eq_div_mul, show (256 : Nat) = 2^8 by norm_num, ← pow_add]
    rw [h1]
    omega
  have h0 : v / 2^120 % 256 = v / 2^120 := Nat.mod_eq_of_lt (by omega)
  simp only [u128_from_be_bytes, MicroShardUUID.as_bytes, List.foldl,
    Nat.shiftRight_eq_div_pow]
  rw [Nat.zero_mul, Nat.zero_add, h0]
  rw [step 120 112 rfl, step 112 104 rfl, step 104 96 rfl, step 96 88 rfl,
      step 88 80 rfl, step 80 72 rfl, step 72 64 rfl, step 64 56 rfl,
      step 56 48 rfl, step 48 40 rfl, step 40 32 rfl, step 32 24 rfl,
      step 24 16 rfl, step 16 8 rfl]
  omega

/-- C8 core: a built identifier round-trips through `as_bytes`/`from_bytes`. -/
theorem built_bytes_roundtrip (m s r : Nat) (u : MicroShardUUID)
    (hb : build m s r = .ok u) : from_bytes u.as_bytes = .ok u := by
  obtain ⟨hm, rfl⟩ := build_ok_inv m s r u hb
  show from_u128 (u128_from_be_bytes (MicroShardUUID.as_bytes ⟨packVal m s r⟩)) = _
  rw [u128_bytes_roundtrip _ (packVal_lt m s r hm)]
  exact ((from_u128_marker_validation (packVal m s r)).1).2
    ⟨packVal_version m s r hm, packVal_variant m s r⟩

/-- C8: every identifier produced by a constructor (`generate`,
`from_micros`, `from_iso`) reproduces itself through the big-endian byte
round-trip, and in particular carries version 8 and variant 2. -/
theorem constructed_bytes_roundtrip :
    (∀ m s r u, build m s r = .ok u → from_bytes u.as_bytes = .ok u ∧
      u.val / 2^76 % 2^4 = 8 ∧ u.val / 2^62 % 2^2 = 2) ∧
    (∀ m s r u, from_micros m s r = .ok u → from_bytes u.as_bytes = .ok u) ∧
    (∀ s c r u, generate s c r = .ok u → from_bytes u.as_bytes = .ok u) ∧
    (∀ txt s r u, from_iso txt s r = some (.ok u) → from_bytes u.as_bytes = .ok u) := by
  have core : ∀ m s r u, build m s r = .ok u → from_bytes u.as_bytes = .ok u ∧
      u.val / 2^76 % 2^4 = 8 ∧ u.val / 2^62 % 2^2 = 2 := by
    intro m s r u hb
    obtain ⟨hm, hu⟩ := build_ok_inv m s r u hb
    refine ⟨built_bytes_roundtrip m s r u hb, ?_, ?_⟩
    · rw [hu]; exact packVal_version m s r hm
    · rw [hu]; exact packVal_variant m s r
  refine ⟨core, ?_, ?_, ?_⟩
  · intro m s r u h
    unfold from_micros at h
    cases hv : validate_shard s with
    | error e => rw [hv] at h; exact absurd h (by simp)
    | ok _ => rw [hv] at h; exact (core m s r u h).1
  · intro s c r u h
    unfold generate at h
    cases hv : validate_shard s with
    | error e => rw [hv] at h; exact absurd h (by simp)
    | ok _ => rw [hv] at h; exact (core _ s r u h).1
  · intro txt s r u h
    unfold from_iso at h
    cases hv : validate_shard s with
    | error e => rw [hv] at h; exact absurd h (by simp)
    | ok _ =>
      rw [hv] at h
      cases hp : parse_iso_strict txt with
      | none => rw [hp] at h; exact absurd h (by simp)
      | some res =>
        rw [hp] at h
        cases res with
        | error e => exact absurd h (by simp)
        | ok micros =>
          simp only [Option.some.injEq] at h
          exact (core micros s r u h).1

theorem constructed_bytes_roundtrip_witness :
    from_bytes (MicroShardUUID.as_bytes ⟨packVal 1672574400123456 1 55⟩) =
      .ok ⟨packVal 1672574400123456 1 55⟩ :=
  (constructed_bytes_roundtrip.1 1672574400123456 1 55 ⟨packVal 1672574400123456 1 55⟩
    (build_eq_packVal 1672574400123456 1 55 (by norm_num [MAX_TIME_MICROS]))).1

/-- The 54-bit timestamp field can never decode above `2^54 - 1`, whatever
the 128-bit value. -/
theorem timestamp_le_max (u : MicroShardUUID) : u.timestamp_micros ≤ 2^54 - 1 := by
  have d1 : ∀ x : Nat, x &&& 0xFFFFFFFFFFFF = x % 2^48 := fun x => by
    rw [show (0xFFFFFFFFFFFF : Nat) = 2^48 - 1 by norm_num, and_mask_eq_mod]
  have d2 : ∀ x : Nat, x &&& 0x3F = x % 2^6 := fun x => by
    rw [show (0x3F : Nat) = 2^6 - 1 by norm_num, and_mask_eq_mod]
  simp only [MicroShardUUID.timestamp_micros]
  rw [d1, d2, Nat.shiftRight_eq_div_pow, Nat.shiftRight_eq_div_pow,
      Nat.shiftRight_eq_div_pow, Nat.shiftLeft_eq]
  rw [lor_eq_add _ _ 6 ⟨_, by ring⟩ (Nat.mod_lt _ (by norm_num))]
  have h1 : u.val / 2^64 % 2^64 / 2^16 % 2^48 < 2^48 := Nat.mod_lt _ (by norm_num)
  have h2 : u.val / 2^64 % 2^64 / 2^6 % 2^6 < 2^6 := Nat.mod_lt _ (by norm_num)
  omega

/-- C9: the timestamp bound `2^54 - 1` is an invariant of every value the
type can hold, in particular of every import accepted by
`from_u128`/`from_bytes` and every built identifier. -/
theorem timestamp_bound_invariant :
    (∀ u : MicroShardUUID, u.timestamp_micros ≤ 2^54 - 1) ∧
    (∀ v u, from_u128 v = .ok u → u.timestamp_micros ≤ 2^54 - 1) ∧
    (∀ bs u, from_bytes bs = .ok u → u.timestamp_micros ≤ 2^54 - 1) ∧
    (∀ m s r u, build m s r = .ok u → u.timestamp_micros = m ∧ m ≤ 2^54 - 1) := by
  refine ⟨timestamp_le_max, fun v u _ => timestamp_le_max u,
    fun bs u _ => timestamp_le_max u, ?_⟩
  intro m s r u hb
  obtain ⟨hm, rfl⟩ := build_ok_inv m s r u hb
  refine ⟨timestamp_packVal m s r hm, ?_⟩
  have h : MAX_TIME_MICROS = 2^54 - 1 := by norm_num [MAX_TIME_MICROS]
  omega

theorem timestamp_bound_invariant_witness :
    (MicroShardUUID.mk (packVal 0 0 0)).timestamp_micros ≤ 2^54 - 1 :=
  timestamp_bound_invariant.1 ⟨packVal 0 0 0⟩

/-- Xor with a strict right shift of oneself vanishes only at zero. -/
theorem xor_shiftRight_eq_zero_iff (x k : Nat) (hk : 0 < k) :
    x ^^^ (x >>> k) = 0 ↔ x = 0 := by
  constructor
  · intro h
    have he : x = x >>> k := by
      have := Nat.xor_eq_zero.mp h
      exact this
    by_contra hx
    have hlt : x >>> k < x := by
      rw [Nat.shiftRight_eq_div_pow]
      exact Nat.div_lt_self (Nat.pos_of_ne_zero hx) (by
        have : (2:Nat)^1 ≤ 2^k := Nat.pow_le_pow_right (by norm_num) hk
        omega)
    omega
  · rintro rfl
    simp

/-- Xor with the truncated left shift of oneself vanishes only at zero
(the odd factor `2^25 - 1` is invertible modulo `2^64`). -/
theorem xor_shiftLeft_mod_eq_zero_iff (x : Nat) (h : x < 2^64) :
    x ^^^ ((x <<< 25) % 2^64) = 0 ↔ x = 0 := by
  constructor
  · intro hz
    have he : x = (x <<< 25) % 2^64 := Nat.xor_eq_zero.mp hz
    rw [Nat.shiftLeft_eq] at he
    have hqm := Nat.div_add_mod (x * 2^25) (2^64)
    set q := x * 2^25 / 2^64 with hq
    have e : x * 2^25 = 2^64 * q + x := by omega
    omega
  · rintro rfl
    simp

/-- C10: the generator state is never zero: `SimpleRng::new` always
establishes a non-zero state (falling back to `0xCAFEBABE` exactly when the
mixed seed is zero), and each `next_u64` step maps a non-zero 64-bit state
to a non-zero state, so the xorshift never reaches its absorbing zero
state. -/
theorem rng_state_never_zero :
    (∀ nanos ptr : Nat, (SimpleRng.new nanos ptr).state ≠ 0 ∧
      ((nanos % 2^64) ^^^ (ptr % 2^64) = 0 →
        (SimpleRng.new nanos ptr).state = 0xCAFEBABE)) ∧
    (∀ rng : SimpleRng, rng.state < 2^64 → rng.state ≠ 0 →
      (rng.next_u64).2.state ≠ 0) := by
  constructor
  · intro nanos ptr
    simp only [SimpleRng.new]
    by_cases hz : (nanos % 2^64) ^^^ (ptr % 2^64) = 0
    · rw [if_pos hz]
      exact ⟨by norm_num, fun _ => rfl⟩
    · rw [if_neg hz]
      exact ⟨hz, fun hc => absurd hc hz⟩
  · intro rng hlt hne
    simp only [SimpleRng.next_u64]
    intro h3
    set x0 := rng.state with hx0
    set x1 := x0 ^^^ (x0 >>> 12) with hx1
    set x2 := x1 ^^^ ((x1 <<< 25) % 2^64) with hx2
    have hx1lt : x1 < 2^64 :=
      Nat.xor_lt_two_pow hlt (by
        rw [Nat.shiftRight_eq_div_pow]
        omega)
    have h2 : x2 = 0 := (xor_shiftRight_eq_zero_iff x2 27 (by norm_num)).mp h3
    have h1 : x1 = 0 := (xor_shiftLeft_mod_eq_zero_iff x1 hx1lt).mp (hx2 ▸ h2)
    have h0 : x0 = 0 := (xor_shiftRight_eq_zero_iff x0 12 (by norm_num)).mp (hx1 ▸ h1)
    exact hne h0

theorem rng_state_never_zero_witness :
    (SimpleRng.new 0 0).state ≠ 0 ∧
    (SimpleRng.new 0 0).state = 0xCAFEBABE ∧
    ((SimpleRng.mk 1).next_u64).2.state ≠ 0 :=
  ⟨(rng_state_never_zero.1 0 0).1, (rng_state_never_zero.1 0 0).2 (by norm_num),
    rng_state_never_zero.2 ⟨1⟩ (by norm_num) (by norm_num)⟩

/-! ## Calendar correctness

`unix_to_civil` follows Hinnant's civil-from-days algorithm; the analysis
below works in the March-based year-of-era coordinates.  `yearStart y` is
the day-of-era on which March-based year `y` begins, `marchStart mp` the
day-of-year on which March-based month `mp` begins. -/

def yearStart (y : Nat) : Nat := 365 * y + y / 4 - y / 100 + y / 400

def yoeOf (doe : Nat) : Nat := (doe - doe / 1460 + doe / 36524 - doe / 146096) / 365

def marchStart (mp : Nat) : Nat := (153 * mp + 2) / 5

theorem yoeOf_at_bounds :
    ∀ y < 400, yoeOf (yearStart y) = y ∧ yoeOf (yearStart (y+1) - 1) = y := by decide

theorem yearStart_mono : Monotone yearStart := by
  apply monotone_nat_of_le_succ
  intro n
  unfold yearStart
  omega

theorem yoeOf_mono {a b : Nat} (hab : a ≤ b) (hb : b ≤ 146096) : yoeOf a ≤ yoeOf b := by
  apply Nat.div_le_div_right
  omega

/-- The year-of-era formula is exact: it returns the unique March-based year
whose day span contains `doe`. -/
theorem yoeOf_eq (y doe : Nat) (hy : y < 400)
    (h1 : yearStart y ≤ doe) (h2 : doe < yearStart (y+1)) : yoeOf doe = y := by
  have hb : yearStart (y + 1) ≤ 146097 := by
    unfold yearStart
    omega
  have e1 := (yoeOf_at_bounds y hy).1
  have e2 := (yoeOf_at_bounds y hy).2
  have m1 : yoeOf (yearStart y) ≤ yoeOf doe := yoeOf_mono h1 (by omega)
  have m2 : yoeOf doe ≤ yoeOf (yearStart (y+1) - 1) := yoeOf_mono (by omega) (by omega)
  omega

/-- Exactness of the linear month map on a March-based day-of-year, together
with the day-of-month bounds needed downstream.  (`mp + 3` is the civil
month for `mp < 10`, months 11/12 are January/February.) -/
theorem month_table :
    ∀ doy < 366,
      (5 * doy + 2) / 153 < 12 ∧
      (153 * ((5 * doy + 2) / 153) + 2) / 5 ≤ doy ∧
      doy < (153 * ((5 * doy + 2) / 153 + 1) + 2) / 5 ∧
      1 ≤ doy - (153 * ((5 * doy + 2) / 153) + 2) / 5 + 1 ∧
      ((5 * doy + 2) / 153 < 10 →
        doy - (153 * ((5 * doy + 2) / 153) + 2) / 5 + 1 ≤
          (if (5 * doy + 2) / 153 + 3 = 4 ∨ (5 * doy + 2) / 153 + 3 = 6 ∨
              (5 * doy + 2) / 153 + 3 = 9 ∨ (5 * doy + 2) / 153 + 3 = 11
           then 30 else 31)) ∧
      ((5 * doy + 2) / 153 = 10 →
        doy - (153 * ((5 * doy + 2) / 153) + 2) / 5 + 1 ≤ 31) ∧
      ((5 * doy + 2) / 153 = 11 →
        doy - (153 * ((5 * doy + 2) / 153) + 2) / 5 + 1 = doy - 336) := by
  decide

/-- The month map is constant on each month's day span. -/
theorem month_of_interval (mp doy : Nat) (_hmp : mp < 12)
    (h1 : marchStart mp ≤ doy) (h2 : doy < marchStart (mp + 1)) :
    (5 * doy + 2) / 153 = mp := by
  unfold marchStart at h1 h2
  omega

theorem days_before_of_mp :
    ∀ mp < 10, DAYS_BEFORE.getD (mp + 2) 0 = (marchStart mp : Int) + 59 := by decide

theorem is_leap_natCast (n : Nat) :
    is_leap (n : Int) = true ↔ ((n % 4 = 0 ∧ ¬ n % 100 = 0) ∨ n % 400 = 0) := by
  unfold is_leap
  have t4 : Int.tmod (n : Int) 4 = ((n % 4 : Nat) : Int) := by
    exact_mod_cast (Int.ofNat_tmod n 4).symm
  have t100 : Int.tmod (n : Int) 100 = ((n % 100 : Nat) : Int) := by
    exact_mod_cast (Int.ofNat_tmod n 100).symm
  have t400 : Int.tmod (n : Int) 400 = ((n % 400 : Nat) : Int) := by
    exact_mod_cast (Int.ofNat_tmod n 400).symm
  rw [t4, t100, t400]
  simp only [Bool.or_eq_true, Bool.and_eq_true, beq_iff_eq, bne_iff_ne]
  constructor
  · rintro (⟨h1, h2⟩ | h3)
    · exact Or.inl ⟨by exact_mod_cast h1, by exact_mod_cast h2⟩
    · exact Or.inr (by exact_mod_cast h3)
  · rintro (⟨h1, h2⟩ | h3)
    · exact Or.inl ⟨by exact_mod_cast h1, by exact_mod_cast h2⟩
    · exact Or.inr (by exact_mod_cast h3)

theorem tdiv_coe (a b : Nat) : Int.tdiv (a : Int) (b : Int) = ((a / b : Nat) : Int) :=
  (Int.ofNat_tdiv a b).symm

theorem tdiv4_coe (a : Nat) : Int.tdiv (a : Int) 4 = ((a / 4 : Nat) : Int) := by
  exact_mod_cast tdiv_coe a 4

theorem tdiv100_coe (a : Nat) : Int.tdiv (a : Int) 100 = ((a / 100 : Nat) : Int) := by
  exact_mod_cast tdiv_coe a 100

theorem tdiv400_coe (a : Nat) : Int.tdiv (a : Int) 400 = ((a / 400 : Nat) : Int) := by
  exact_mod_cast tdiv_coe a 400

/-- The heart of the calendar proof: in era coordinates (`era`, March-based
year `yoe`, March-based day-of-year `doy`), the month map of
`unix_to_civil` produces a valid civil date, and `date_to_days` sends that
date back to the era-coordinate day count. -/
theorem date_to_days_era (era yoe doy m d Y : Nat) (hera : 1 ≤ era) (h400 : yoe < 400)
    (hdoy : yearStart yoe + doy < yearStart (yoe + 1))
    (hm : m = if (5 * doy + 2) / 153 < 10 then (5 * doy + 2) / 153 + 3
              else (5 * doy + 2) / 153 - 9)
    (hd : d = doy - (153 * ((5 * doy + 2) / 153) + 2) / 5 + 1)
    (hY : Y = era * 400 + yoe + (if m ≤ 2 then 1 else 0)) :
    date_to_days ((Y : Nat) : Int) m d =
      ((era * 146097 + yearStart yoe + doy : Nat) : Int) - 719468 ∧
    1 ≤ m ∧ m ≤ 12 ∧ 1 ≤ d ∧
    d ≤ (if m = 4 ∨ m = 6 ∨ m = 9 ∨ m = 11 then 30
         else if m = 2 then (if is_leap (Y : Int) then 29 else 28) else 31) := by
  have hdoy366 : doy < 366 := by
    have h := hdoy
    unfold yearStart at h
    omega
  obtain ⟨mt1, mt2, mt3, mt4, mt5, mt6, mt7⟩ := month_table doy hdoy366
  simp only [yearStart] at hdoy ⊢
  have hYpos : 1 ≤ Y := by rw [hY]; omega
  have hY1 : ((Y : Nat) : Int) - 1 = ((Y - 1 : Nat) : Int) := by omega
  have hleapiff := is_leap_natCast Y
  by_cases hsplit : (5 * doy + 2) / 153 < 10
  · -- March..December: civil month is `mp + 3`, no year shift
    rw [if_pos hsplit] at hm
    have hmge : 3 ≤ m := by omega
    rw [if_neg (by omega)] at hY
    have hdb : DAYS_BEFORE.getD (m - 1) 0 =
        (((153 * ((5 * doy + 2) / 153) + 2) / 5 : Nat) : Int) + 59 := by
      rw [show m - 1 = (5 * doy + 2) / 153 + 2 by omega]
      have := days_before_of_mp ((5 * doy + 2) / 153) hsplit
      unfold marchStart at this
      exact this
    refine ⟨?_, by omega, by omega, by omega, ?_⟩
    · simp only [date_to_days, days_from_civil, hdb, hY1, tdiv4_coe, tdiv100_coe, tdiv400_coe]
      by_cases hL : is_leap ((Y : Nat) : Int) = true
      · rw [if_pos ⟨by omega, hL⟩]
        rw [hleapiff] at hL
        omega
      · rw [if_neg (fun hc => hL hc.2)]
        have hL' : ¬ ((Y % 4 = 0 ∧ ¬ Y % 100 = 0) ∨ Y % 400 = 0) :=
          fun h => hL (hleapiff.mpr h)
        omega
    · have hm2 : m ≠ 2 := by omega
      by_cases hc : m = 4 ∨ m = 6 ∨ m = 9 ∨ m = 11
      · rw [if_pos hc]
        rw [if_pos (by omega : (5 * doy + 2) / 153 + 3 = 4 ∨ (5 * doy + 2) / 153 + 3 = 6 ∨
              (5 * doy + 2) / 153 + 3 = 9 ∨ (5 * doy + 2) / 153 + 3 = 11)] at mt5
        omega
      · rw [if_neg hc, if_neg hm2]
        by_cases hc' : (5 * doy + 2) / 153 + 3 = 4 ∨ (5 * doy + 2) / 153 + 3 = 6 ∨
            (5 * doy + 2) / 153 + 3 = 9 ∨ (5 * doy + 2) / 153 + 3 = 11
        · exact absurd hc (by omega)
        · rw [if_neg hc'] at mt5
          omega
  · -- January/February: civil month is `mp - 9`, year shifts by one
    rw [if_neg hsplit] at hm
    have h1011 : (5 * doy + 2) / 153 = 10 ∨ (5 * doy + 2) / 153 = 11 := by omega
    have hm12 : m = 1 ∨ m = 2 := by omega
    rw [if_pos (by omega)] at hY
    have hdb : DAYS_BEFORE.getD (m - 1) 0 = (if m = 1 then 0 else 31) := by
      rcases hm12 with h1 | h2
      · rw [h1, if_pos rfl]; rfl
      · rw [h2, if_neg (by omega)]; rfl
    refine ⟨?_, by omega, by omega, by omega, ?_⟩
    · simp only [date_to_days, days_from_civil, hdb, hY1, tdiv4_coe, tdiv100_coe, tdiv400_coe]
      rw [if_neg (fun hc : 2 < m ∧ is_leap ((Y : Nat) : Int) = true =>
            absurd hc.1 (by omega))]
      rcases hm12 with h1 | h2
      · rw [if_pos h1]
        have h10 : (5 * doy + 2) / 153 = 10 := by omega
        omega
      · rw [if_neg (by omega)]
        have h11 : (5 * doy + 2) / 153 = 11 := by omega
        omega
    · rcases hm12 with h1 | h2
      · rw [if_neg (by omega), if_neg (by omega)]
        have h10 : (5 * doy + 2) / 153 = 10 := by omega
        rw [h10] at mt6
        omega
      · rw [if_neg (by omega), if_pos h2]
        have h11 : (5 * doy + 2) / 153 = 11 := by omega
        rw [h11] at mt7
        by_cases hL : is_leap ((Y : Nat) : Int) = true
        · rw [if_pos hL]
          omega
        · rw [if_neg hL]
          have hL' : ¬ ((Y % 4 = 0 ∧ ¬ Y % 100 = 0) ∨ Y % 400 = 0) :=
            fun h => hL (hleapiff.mpr h)
          -- a non-leap civil year `Y = era*400 + yoe + 1` means the March
          -- year `yoe` has 365 days, bounding `doy` and hence February
          omega


/-- Every day-of-era lies in the span of the March-based year that the
year-of-era formula computes. -/
theorem yoeOf_spec (doe : Nat) (h : doe < 146097) :
    yoeOf doe < 400 ∧ yearStart (yoeOf doe) ≤ doe ∧ doe < yearStart (yoeOf doe + 1) := by
  have hP0 : yearStart 0 ≤ doe := by unfold yearStart; omega
  have hle : Nat.findGreatest (fun y => yearStart y ≤ doe) 399 ≤ 399 :=
    Nat.findGreatest_le 399
  have hPy : yearStart (Nat.findGreatest (fun y => yearStart y ≤ doe) 399) ≤ doe :=
    Nat.findGreatest_spec (P := fun y => yearStart y ≤ doe) (Nat.zero_le 399) hP0
  have hupper : doe < yearStart (Nat.findGreatest (fun y => yearStart y ≤ doe) 399 + 1) := by
    by_cases hcap : Nat.findGreatest (fun y => yearStart y ≤ doe) 399 = 399
    · rw [hcap]
      unfold yearStart
      omega
    · have hlt : Nat.findGreatest (fun y => yearStart y ≤ doe) 399 + 1 ≤ 399 := by omega
      have := Nat.findGreatest_is_greatest
        (show Nat.findGreatest (fun y => yearStart y ≤ doe) 399 <
            Nat.findGreatest (fun y => yearStart y ≤ doe) 399 + 1 by omega) hlt
      simp only [not_le] at this
      omega
  have heq := yoeOf_eq (Nat.findGreatest (fun y => yearStart y ≤ doe) 399) doe
    (by omega) hPy hupper
  rw [heq]
  exact ⟨by omega, hPy, hupper⟩

/-- `unix_to_civil` decomposed into era coordinates: there are `era`,
`yoe`, `doy` (with their defining equations and span bounds) such that the
output is the month map applied to them, together with the clock fields. -/
theorem unix_to_civil_parts (ts : Nat) :
    ∃ era yoe doy : Nat,
      era = (ts / 86400 + 719468) / 146097 ∧
      yoe = yoeOf ((ts / 86400 + 719468) % 146097) ∧
      doy = (ts / 86400 + 719468) % 146097 - yearStart yoe ∧
      yoe < 400 ∧ yearStart yoe ≤ (ts / 86400 + 719468) % 146097 ∧
      (ts / 86400 + 719468) % 146097 < yearStart (yoe + 1) ∧
      unix_to_civil ts =
        (((era * 400 + yoe +
            (if (if (5 * doy + 2) / 153 < 10 then (5 * doy + 2) / 153 + 3
                 else (5 * doy + 2) / 153 - 9) ≤ 2 then 1 else 0) : Nat) : Int),
         (if (5 * doy + 2) / 153 < 10 then (5 * doy + 2) / 153 + 3
          else (5 * doy + 2) / 153 - 9),
         doy - (153 * ((5 * doy + 2) / 153) + 2) / 5 + 1,
         ts % 86400 / 3600, ts % 86400 % 3600 / 60, ts % 86400 % 60) := by
  have hz : ((ts / 86400 : Nat) : Int) + 719468 = ((ts / 86400 + 719468 : Nat) : Int) := by
    push_cast; ring
  have hpos : (0 : Int) ≤ ((ts / 86400 + 719468 : Nat) : Int) := by positivity
  have h146097 : ∀ a : Nat, Int.tdiv (a : Int) 146097 = ((a / 146097 : Nat) : Int) :=
    fun a => by exact_mod_cast tdiv_coe a 146097
  have htoNat : (((ts / 86400 + 719468 : Nat) : Int) -
      (((ts / 86400 + 719468) / 146097 : Nat) : Int) * 146097).toNat =
      (ts / 86400 + 719468) % 146097 := by omega
  obtain ⟨hyoelt, hyoelow, hyoehigh⟩ :=
    yoeOf_spec ((ts / 86400 + 719468) % 146097) (Nat.mod_lt _ (by norm_num))
  refine ⟨(ts / 86400 + 719468) / 146097, yoeOf ((ts / 86400 + 719468) % 146097),
    (ts / 86400 + 719468) % 146097 - yearStart (yoeOf ((ts / 86400 + 719468) % 146097)),
    rfl, rfl, rfl, hyoelt, hyoelow, hyoehigh, ?_⟩
  simp only [unix_to_civil]
  rw [hz, if_pos hpos, h146097, htoNat]
  rw [show ((ts / 86400 + 719468) % 146097 - ((ts / 86400 + 719468) % 146097) / 1460 +
        ((ts / 86400 + 719468) % 146097) / 36524 -
        ((ts / 86400 + 719468) % 146097) / 146096) / 365 =
      yoeOf ((ts / 86400 + 719468) % 146097) from rfl]
  rw [show 365 * yoeOf ((ts / 86400 + 719468) % 146097) +
        yoeOf ((ts / 86400 + 719468) % 146097) / 4 -
        yoeOf ((ts / 86400 + 719468) % 146097) / 100 =
      yearStart (yoeOf ((ts / 86400 + 719468) % 146097)) from by
    unfold yearStart
    omega]
  refine congrArg₂ Prod.mk ?_ rfl
  split <;> push_cast <;> ring

/-- Direction 1 of the calendar inverse: over the whole supported range,
`unix_to_civil` produces an in-range valid civil date together with the
clock fields, and `date_to_days` maps the date back to the day count. -/
theorem unix_to_civil_spec (ts : Nat) (hts : ts ≤ 18014398509) :
    ∃ Y M D : Nat,
      unix_to_civil ts =
        ((Y : Int), M, D, ts % 86400 / 3600, ts % 86400 % 3600 / 60, ts % 86400 % 60) ∧
      1970 ≤ Y ∧ Y ≤ 2540 ∧ 1 ≤ M ∧ M ≤ 12 ∧ 1 ≤ D ∧
      D ≤ (if M = 4 ∨ M = 6 ∨ M = 9 ∨ M = 11 then 30
           else if M = 2 then (if is_leap (Y : Int) then 29 else 28) else 31) ∧
      date_to_days (Y : Int) M D = ((ts / 86400 : Nat) : Int) := by
  obtain ⟨era, yoe, doy, hera, hyoe, hdoy, hyoelt, hlow, hhigh, htup⟩ :=
    unix_to_civil_parts ts
  have heradoy : yearStart yoe + doy < yearStart (yoe + 1) := by omega
  obtain ⟨hdd, hm1, hm12, hd1, hdub⟩ :=
    date_to_days_era era yoe doy
      (if (5 * doy + 2) / 153 < 10 then (5 * doy + 2) / 153 + 3
       else (5 * doy + 2) / 153 - 9)
      (doy - (153 * ((5 * doy + 2) / 153) + 2) / 5 + 1)
      (era * 400 + yoe +
        (if (if (5 * doy + 2) / 153 < 10 then (5 * doy + 2) / 153 + 3
             else (5 * doy + 2) / 153 - 9) ≤ 2 then 1 else 0))
      (by omega) hyoelt heradoy rfl rfl rfl
  have hzeq : ts / 86400 + 719468 = 146097 * era + yearStart yoe + doy := by
    rw [hera, hdoy]
    omega
  have hdoy366 : doy < 366 := by
    have h := heradoy
    unfold yearStart at h
    omega
  have hdoelt : yearStart yoe + doy < 146097 := by
    unfold yearStart
    omega
  refine ⟨era * 400 + yoe +
      (if (if (5 * doy + 2) / 153 < 10 then (5 * doy + 2) / 153 + 3
           else (5 * doy + 2) / 153 - 9) ≤ 2 then 1 else 0),
    (if (5 * doy + 2) / 153 < 10 then (5 * doy + 2) / 153 + 3
     else (5 * doy + 2) / 153 - 9),
    (doy - (153 * ((5 * doy + 2) / 153) + 2) / 5 + 1),
    htup, ?_, ?_, hm1, hm12, hd1, hdub, ?_⟩
  · -- 1970 ≤ Y := era * 400 + yoe + bit
    obtain ⟨mt1, mt2, mt3, mt4, mt5, mt6, mt7⟩ := month_table _ hdoy366
    clear mt4 mt5 mt6 mt7 hm1 hm12 hd1 hdd htup hdub hera hyoe hdoy hlow hhigh heradoy
    unfold yearStart at hzeq hdoelt
    by_cases hmp : (5 * doy + 2) / 153 < 10
    · rw [if_pos hmp, if_neg (by omega)]
      clear mt1 mt2 mt3
      rcases le_or_lt yoe 369 with hy | hy
      · have hys := yearStart_mono hy
        unfold yearStart at hys
        omega
      · omega
    · rw [if_neg hmp, if_pos (by omega)]
      clear mt1 mt2 mt3
      omega
  · -- Y ≤ 2540
    obtain ⟨mt1, mt2, mt3, mt4, mt5, mt6, mt7⟩ := month_table _ hdoy366
    clear mt4 mt5 mt6 mt7 hm1 hm12 hd1 hdd htup hdub hera hyoe hdoy hlow hhigh heradoy
    unfold yearStart at hzeq hdoelt
    by_cases hmp : (5 * doy + 2) / 153 < 10
    · rw [if_pos hmp, if_neg (by omega)]
      clear mt1 mt2 mt3
      omega
    · rw [if_neg hmp, if_pos (by omega)]
      clear mt1 mt3
      omega
  · rw [hdd]
    clear hdd htup hdub hera hyoe hdoy hlow hhigh heradoy
    omega

/-! ## Decimal rendering lemmas -/

theorem natDigitsAux_small (f n : Nat) (h : n < 10) : natDigitsAux f n = [n] := by
  cases f with
  | zero => unfold natDigitsAux; rw [Nat.mod_eq_of_lt h]
  | succ f => unfold natDigitsAux; rw [if_pos h]

theorem natDigitsAux_fuel (n : Nat) : ∀ f g, n ≤ f → n ≤ g →
    natDigitsAux f n = natDigitsAux g n := by
  induction n using Nat.strong_induction_on with
  | _ n ih =>
    intro f g hf hg
    by_cases h : n < 10
    · rw [natDigitsAux_small f n h, natDigitsAux_small g n h]
    · obtain ⟨f', rfl⟩ : ∃ f', f = f' + 1 := ⟨f - 1, by omega⟩
      obtain ⟨g', rfl⟩ : ∃ g', g = g' + 1 := ⟨g - 1, by omega⟩
      unfold natDigitsAux
      rw [if_neg h, if_neg h, ih (n / 10) (by omega) f' g' (by omega) (by omega)]

theorem natDigits_small (n : Nat) (h : n < 10) : natDigits n = [n] :=
  natDigitsAux_small n n h

theorem natDigits_step (n : Nat) (h : 10 ≤ n) :
    natDigits n = natDigits (n / 10) ++ [n % 10] := by
  unfold natDigits
  obtain ⟨f', rfl⟩ : ∃ f', n = f' + 1 := ⟨n - 1, by omega⟩
  conv_lhs => unfold natDigitsAux
  rw [if_neg (by omega)]
  rw [natDigitsAux_fuel ((f' + 1) / 10) f' ((f' + 1) / 10) (by omega) (le_refl _)]

theorem natDigits2 (n : Nat) (h1 : 10 ≤ n) (h2 : n < 100) :
    natDigits n = [n / 10, n % 10] := by
  rw [natDigits_step n h1, natDigits_small (n / 10) (by omega)]
  rfl

theorem natDigits3 (n : Nat) (h1 : 100 ≤ n) (h2 : n < 1000) :
    natDigits n = [n / 100, n / 10 % 10, n % 10] := by
  rw [natDigits_step n (by omega), natDigits2 (n / 10) (by omega) (by omega)]
  have e1 : n / 10 / 10 = n / 100 := by omega
  rw [e1]
  rfl

theorem natDigits4 (n : Nat) (h1 : 1000 ≤ n) (h2 : n < 10000) :
    natDigits n = [n / 1000, n / 100 % 10, n / 10 % 10, n % 10] := by
  rw [natDigits_step n (by omega), natDigits3 (n / 10) (by omega) (by omega)]
  have e1 : n / 10 / 100 = n / 1000 := by omega
  have e2 : n / 10 / 10 = n / 100 := by omega
  rw [e1, e2]
  rfl

theorem natDigits5 (n : Nat) (h1 : 10000 ≤ n) (h2 : n < 100000) :
    natDigits n = [n / 10000, n / 1000 % 10, n / 100 % 10, n / 10 % 10, n % 10] := by
  rw [natDigits_step n (by omega), natDigits4 (n / 10) (by omega) (by omega)]
  have e1 : n / 10 / 1000 = n / 10000 := by omega
  have e2 : n / 10 / 100 = n / 1000 := by omega
  have e3 : n / 10 / 10 = n / 100 := by omega
  rw [e1, e2, e3]
  rfl

theorem natDigits6 (n : Nat) (h1 : 100000 ≤ n) (h2 : n < 1000000) :
    natDigits n = [n / 100000, n / 10000 % 10, n / 1000 % 10, n / 100 % 10,
                   n / 10 % 10, n % 10] := by
  rw [natDigits_step n (by omega), natDigits5 (n / 10) (by omega) (by omega)]
  have e1 : n / 10 / 10000 = n / 100000 := by omega
  have e2 : n / 10 / 1000 = n / 10000 := by omega
  have e3 : n / 10 / 100 = n / 1000 := by omega
  have e4 : n / 10 / 10 = n / 100 := by omega
  rw [e1, e2, e3, e4]
  rfl

theorem padNum2 (n : Nat) (h : n < 100) :
    padNum 2 n = [48 + n / 10, 48 + n % 10] := by
  unfold padNum
  by_cases h10 : n < 10
  · rw [natDigits_small n h10]
    trans ([48, 48 + n] : List Nat)
    · rfl
    · simp only [List.cons.injEq, List.nil_eq, and_true]
      omega
  · rw [natDigits2 n (by omega) h]
    rfl

theorem padNum4 (n : Nat) (h1 : 1000 ≤ n) (h2 : n < 10000) :
    padNum 4 n = [48 + n / 1000, 48 + n / 100 % 10, 48 + n / 10 % 10, 48 + n % 10] := by
  unfold padNum
  rw [natDigits4 n h1 h2]
  rfl

theorem padNum6 (n : Nat) (h : n < 1000000) :
    padNum 6 n = [48 + n / 100000, 48 + n / 10000 % 10, 48 + n / 1000 % 10,
                  48 + n / 100 % 10, 48 + n / 10 % 10, 48 + n % 10] := by
  unfold padNum
  rcases lt_or_ge n 10 with h1 | h1
  · rw [natDigits_small n h1]
    trans ([48, 48, 48, 48, 48, 48 + n] : List Nat)
    · rfl
    · simp only [List.cons.injEq, List.nil_eq, and_true]
      omega
  rcases lt_or_ge n 100 with h2 | h2
  · rw [natDigits2 n h1 h2]
    trans ([48, 48, 48, 48, 48 + n / 10, 48 + n % 10] : List Nat)
    · rfl
    · simp only [List.cons.injEq, List.nil_eq, and_true]
      omega
  rcases lt_or_ge n 1000 with h3 | h3
  · rw [natDigits3 n h2 h3]
    trans ([48, 48, 48, 48 + n / 100, 48 + n / 10 % 10, 48 + n % 10] : List Nat)
    · rfl
    · simp only [List.cons.injEq, List.nil_eq, and_true]
      omega
  rcases lt_or_ge n 10000 with h4 | h4
  · rw [natDigits4 n h3 h4]
    trans ([48, 48, 48 + n / 1000, 48 + n / 100 % 10, 48 + n / 10 % 10, 48 + n % 10] : List Nat)
    · rfl
    · simp only [List.cons.injEq, List.nil_eq, and_true]
      omega
  rcases lt_or_ge n 100000 with h5 | h5
  · rw [natDigits5 n h4 h5]
    trans ([48, 48 + n / 10000, 48 + n / 1000 % 10, 48 + n / 100 % 10,
            48 + n / 10 % 10, 48 + n % 10] : List Nat)
    · rfl
    · simp only [List.cons.injEq, List.nil_eq, and_true]
      omega
  · rw [natDigits6 n h5 h]
    rfl

/-! ## Parser stepping lemmas -/

theorem digitsVal_cons (a : Nat) (rest : List Nat) (acc : Nat) (ha : a ≤ 9) :
    digitsVal ((48 + a) :: rest) acc = digitsVal rest (acc * 10 + a) := by
  conv_lhs => unfold digitsVal
  rw [if_pos (by omega), show 48 + a - 48 = a from by omega]

theorem parseU32Bytes_cons (x : Nat) (rest : List Nat) (hx : x ≠ 43) :
    parseU32Bytes (x :: rest) = digitsVal (x :: rest) 0 := by
  unfold parseU32Bytes
  split
  · rename_i h
    exact absurd h (by simp)
  · rename_i r h
    injection h with h1 _
    exact absurd h1 hx
  · rfl

theorem parseI32Bytes_cons (x : Nat) (rest : List Nat) (hx : x ≠ 43) (hx' : x ≠ 45) :
    parseI32Bytes (x :: rest) = (digitsVal (x :: rest) 0).map (fun n => (n : Int)) := by
  unfold parseI32Bytes
  split
  · rename_i h
    exact absurd h (by simp)
  · rename_i r h
    injection h with h1 _
    exact absurd h1 hx
  · rename_i r h
    injection h with h1 _
    exact absurd h1 hx'
  · rfl

theorem fracLoop_cons (b : Nat) (rest : List Nat) (micros mult : Nat)
    (hb : b ≤ 9) (hm : 1 ≤ mult) :
    fracLoop ((48 + b) :: rest) micros mult = fracLoop rest (micros + b * mult) (mult / 10) := by
  conv_lhs => unfold fracLoop
  rw [if_pos (by omega), if_pos hm, show 48 + b - 48 = b from by omega]

theorem parseU32_two (a b : Nat) (ha : a ≤ 9) (hb : b ≤ 9) :
    parseU32Bytes [48 + a, 48 + b] = some (10 * a + b) := by
  rw [parseU32Bytes_cons _ _ (by omega), digitsVal_cons _ _ _ ha, digitsVal_cons _ _ _ hb]
  unfold digitsVal
  rw [show (0 * 10 + a) * 10 + b = 10 * a + b from by ring]

theorem parseI32_four (a b c d : Nat) (ha : a ≤ 9) (hb : b ≤ 9) (hc : c ≤ 9) (hd : d ≤ 9) :
    parseI32Bytes [48 + a, 48 + b, 48 + c, 48 + d] =
      some ((1000 * a + 100 * b + 10 * c + d : Nat) : Int) := by
  rw [parseI32Bytes_cons _ _ (by omega) (by omega), digitsVal_cons _ _ _ ha,
      digitsVal_cons _ _ _ hb, digitsVal_cons _ _ _ hc, digitsVal_cons _ _ _ hd]
  unfold digitsVal
  rw [show ((0 * 10 + a) * 10 + b) * 10 + c = 100 * a + 10 * b + c from by ring]
  rw [show (100 * a + 10 * b + c) * 10 + d = 1000 * a + 100 * b + 10 * c + d from by ring]
  rfl

theorem fracLoop_six (a b c d e f : Nat) (ha : a ≤ 9) (hb : b ≤ 9) (hc : c ≤ 9)
    (hd : d ≤ 9) (he : e ≤ 9) (hf : f ≤ 9) :
    fracLoop [48 + a, 48 + b, 48 + c, 48 + d, 48 + e, 48 + f] 0 100000 =
      some (100000 * a + 10000 * b + 1000 * c + 100 * d + 10 * e + f) := by
  rw [fracLoop_cons _ _ _ _ ha (by norm_num), fracLoop_cons _ _ _ _ hb (by norm_num),
      fracLoop_cons _ _ _ _ hc (by norm_num), fracLoop_cons _ _ _ _ hd (by norm_num),
      fracLoop_cons _ _ _ _ he (by norm_num), fracLoop_cons _ _ _ _ hf (by norm_num)]
  unfold fracLoop
  congr 1
  norm_num
  ring

theorem findIdx_step (p : Nat → Bool) (x : Nat) (l : List Nat) (hx : p x = false) :
    List.findIdx? p (x :: l) = (List.findIdx? p l).map (fun i => i + 1) := by
  rw [List.findIdx?_cons, if_neg (by simp [hx]), List.findIdx?_succ]

theorem findIdx_hit (p : Nat → Bool) (x : Nat) (l : List Nat) (hx : p x = true) :
    List.findIdx? p (x :: l) = some 0 := by
  rw [List.findIdx?_cons, if_pos hx]

/-! ## Slicing pure-ASCII strings -/

theorem getD_ascii (s : List Nat) (h : ∀ x ∈ s, x < 128) (i : Nat) (hi : i < s.length) :
    s.getD i 0 < 128 := by
  rw [List.getD_eq_getElem s 0 hi]
  exact h _ (List.getElem_mem hi)

theorem isCharBoundary_ascii (s : List Nat) (h : ∀ x ∈ s, x < 128) (i : Nat)
    (hi : i ≤ s.length) : isCharBoundary s i = true := by
  unfold isCharBoundary
  simp only [decide_eq_true_eq]
  rcases eq_or_lt_of_le hi with heq | hlt
  · exact Or.inl heq
  · exact Or.inr ⟨hlt, Or.inl (getD_ascii s h i hlt)⟩

theorem sliceStr_ascii (s : List Nat) (h : ∀ x ∈ s, x < 128) (a b : Nat)
    (hab : a ≤ b) (hb : b ≤ s.length) :
    sliceStr s a b = some ((s.drop a).take (b - a)) := by
  unfold sliceStr
  rw [if_pos ⟨hab, hb, isCharBoundary_ascii s h a (le_trans hab hb),
      isCharBoundary_ascii s h b hb⟩]

/-! ## Parsing a rendered timestamp -/

theorem beq90_digit (a : Nat) (ha : a ≤ 9) : ((48 + a : Nat) == 90) = false := by
  simp only [beq_eq_false_iff_ne, ne_eq]
  omega

theorem parse_iso_pattern (Y M D H Mi S F : Nat)
    (hY1 : 1000 ≤ Y) (hY2 : Y ≤ 9999) (hM : 1 ≤ M) (hM12 : M ≤ 12)
    (hD1 : 1 ≤ D)
    (hD : D ≤ (if M = 4 ∨ M = 6 ∨ M = 9 ∨ M = 11 then 30
               else if M = 2 then (if is_leap (Y : Int) then 29 else 28) else 31))
    (hH : H ≤ 23) (hMi : Mi ≤ 59) (hS : S ≤ 60) (hF : F < 1000000)
    (hdays : 0 ≤ date_to_days (Y : Int) M D) :
    parse_iso_strict (padNum 4 Y ++ [45] ++ padNum 2 M ++ [45] ++ padNum 2 D ++ [84] ++
        padNum 2 H ++ [58] ++ padNum 2 Mi ++ [58] ++ padNum 2 S ++ [46] ++
        padNum 6 F ++ [90]) =
      some (.ok (((date_to_days (Y : Int) M D).toNat * 86400 +
                    H * 3600 + Mi * 60 + S) * 1000000 + F)) := by
  have hD31 : D ≤ 31 := by
    by_cases h1 : M = 4 ∨ M = 6 ∨ M = 9 ∨ M = 11
    · rw [if_pos h1] at hD
      omega
    · rw [if_neg h1] at hD
      by_cases h2 : M = 2
      · rw [if_pos h2] at hD
        split_ifs at hD <;> omega
      · rw [if_neg h2] at hD
        omega
  rw [padNum4 Y hY1 (by omega), padNum2 M (by omega), padNum2 D (by omega),
      padNum2 H (by omega), padNum2 Mi (by omega), padNum2 S (by omega), padNum6 F hF]
  simp only [List.cons_append, List.nil_append]
  set L : List Nat :=
    [48 + Y / 1000, 48 + Y / 100 % 10, 48 + Y / 10 % 10, 48 + Y % 10, 45,
     48 + M / 10, 48 + M % 10, 45, 48 + D / 10, 48 + D % 10, 84,
     48 + H / 10, 48 + H % 10, 58, 48 + Mi / 10, 48 + Mi % 10, 58,
     48 + S / 10, 48 + S % 10, 46, 48 + F / 100000, 48 + F / 10000 % 10,
     48 + F / 1000 % 10, 48 + F / 100 % 10, 48 + F / 10 % 10, 48 + F % 10, 90] with hL
  have hascii : ∀ x ∈ L, x < 128 := by
    rw [hL]
    intro x hx
    simp only [List.mem_cons, List.not_mem_nil, or_false] at hx
    rcases hx with rfl | rfl | rfl | rfl | rfl | rfl | rfl | rfl | rfl | rfl | rfl | rfl |
      rfl | rfl | rfl | rfl | rfl | rfl | rfl | rfl | rfl | rfl | rfl | rfl | rfl | rfl | rfl
    all_goals omega
  have hlen : L.length = 27 := by rw [hL]; rfl
  have h20 : ¬(L.length < 20) := by rw [hlen]; omega
  have h20' : 20 < L.length := by rw [hlen]; omega
  have hsep : L.getD 4 0 = 45 ∧ L.getD 7 0 = 45 ∧ L.getD 10 0 = 84 ∧
      L.getD 13 0 = 58 ∧ L.getD 16 0 = 58 := by
    rw [hL]
    exact ⟨rfl, rfl, rfl, rfl, rfl⟩
  have hgetD19 : L.getD 19 0 = 46 := by rw [hL]; rfl
  have hs1 : sliceStr L 0 4 =
      some [48 + Y / 1000, 48 + Y / 100 % 10, 48 + Y / 10 % 10, 48 + Y % 10] := by
    rw [sliceStr_ascii L hascii 0 4 (by omega) (by rw [hlen]; omega), hL]
    rfl
  have hs2 : sliceStr L 5 7 = some [48 + M / 10, 48 + M % 10] := by
    rw [sliceStr_ascii L hascii 5 7 (by omega) (by rw [hlen]; omega), hL]
    rfl
  have hs3 : sliceStr L 8 10 = some [48 + D / 10, 48 + D % 10] := by
    rw [sliceStr_ascii L hascii 8 10 (by omega) (by rw [hlen]; omega), hL]
    rfl
  have hs4 : sliceStr L 11 13 = some [48 + H / 10, 48 + H % 10] := by
    rw [sliceStr_ascii L hascii 11 13 (by omega) (by rw [hlen]; omega), hL]
    rfl
  have hs5 : sliceStr L 14 16 = some [48 + Mi / 10, 48 + Mi % 10] := by
    rw [sliceStr_ascii L hascii 14 16 (by omega) (by rw [hlen]; omega), hL]
    rfl
  have hs6 : sliceStr L 17 19 = some [48 + S / 10, 48 + S % 10] := by
    rw [sliceStr_ascii L hascii 17 19 (by omega) (by rw [hlen]; omega), hL]
    rfl
  have hs7 : sliceStr L 20 26 =
      some [48 + F / 100000, 48 + F / 10000 % 10, 48 + F / 1000 % 10,
            48 + F / 100 % 10, 48 + F / 10 % 10, 48 + F % 10] := by
    rw [sliceStr_ascii L hascii 20 26 (by omega) (by rw [hlen]; omega), hL]
    rfl
  have hp1 : parseI32Bytes [48 + Y / 1000, 48 + Y / 100 % 10, 48 + Y / 10 % 10, 48 + Y % 10] =
      some ((Y : Int)) := by
    rw [parseI32_four _ _ _ _ (by omega) (by omega) (by omega) (by omega),
        show 1000 * (Y / 1000) + 100 * (Y / 100 % 10) + 10 * (Y / 10 % 10) + Y % 10 = Y
          from by omega]
  have hp2 : parseU32Bytes [48 + M / 10, 48 + M % 10] = some M := by
    rw [parseU32_two _ _ (by omega) (by omega), show 10 * (M / 10) + M % 10 = M from by omega]
  have hp3 : parseU32Bytes [48 + D / 10, 48 + D % 10] = some D := by
    rw [parseU32_two _ _ (by omega) (by omega), show 10 * (D / 10) + D % 10 = D from by omega]
  have hp4 : parseU32Bytes [48 + H / 10, 48 + H % 10] = some H := by
    rw [parseU32_two _ _ (by omega) (by omega), show 10 * (H / 10) + H % 10 = H from by omega]
  have hp5 : parseU32Bytes [48 + Mi / 10, 48 + Mi % 10] = some Mi := by
    rw [parseU32_two _ _ (by omega) (by omega),
        show 10 * (Mi / 10) + Mi % 10 = Mi from by omega]
  have hp6 : parseU32Bytes [48 + S / 10, 48 + S % 10] = some S := by
    rw [parseU32_two _ _ (by omega) (by omega), show 10 * (S / 10) + S % 10 = S from by omega]
  have hfrac : fracLoop [48 + F / 100000, 48 + F / 10000 % 10, 48 + F / 1000 % 10,
      48 + F / 100 % 10, 48 + F / 10 % 10, 48 + F % 10] 0 100000 = some F := by
    rw [fracLoop_six _ _ _ _ _ _ (by omega) (by omega) (by omega) (by omega) (by omega)
          (by omega),
        show 100000 * (F / 100000) + 10000 * (F / 10000 % 10) + 1000 * (F / 1000 % 10) +
            100 * (F / 100 % 10) + 10 * (F / 10 % 10) + F % 10 = F from by omega]
  have hfind : L.findIdx? (fun b => b == 90) = some 26 := by
    rw [hL]
    rw [
      findIdx_step (fun b => b == 90) (48 + Y / 1000) _ (beq90_digit _ (by omega)),
      findIdx_step (fun b => b == 90) (48 + Y / 100 % 10) _ (beq90_digit _ (by omega)),
      findIdx_step (fun b => b == 90) (48 + Y / 10 % 10) _ (beq90_digit _ (by omega)),
      findIdx_step (fun b => b == 90) (48 + Y % 10) _ (beq90_digit _ (by omega)),
      findIdx_step (fun b => b == 90) 45 _ (by decide),
      findIdx_step (fun b => b == 90) (48 + M / 10) _ (beq90_digit _ (by omega)),
      findIdx_step (fun b => b == 90) (48 + M % 10) _ (beq90_digit _ (by omega)),
      findIdx_step (fun b => b == 90) 45 _ (by decide),
      findIdx_step (fun b => b == 90) (48 + D / 10) _ (beq90_digit _ (by omega)),
      findIdx_step (fun b => b == 90) (48 + D % 10) _ (beq90_digit _ (by omega)),
      findIdx_step (fun b => b == 90) 84 _ (by decide),
      findIdx_step (fun b => b == 90) (48 + H / 10) _ (beq90_digit _ (by omega)),
      findIdx_step (fun b => b == 90) (48 + H % 10) _ (beq90_digit _ (by omega)),
      findIdx_step (fun b => b == 90) 58 _ (by decide),
      findIdx_step (fun b => b == 90) (48 + Mi / 10) _ (beq90_digit _ (by omega)),
      findIdx_step (fun b => b == 90) (48 + Mi % 10) _ (beq90_digit _ (by omega)),
      findIdx_step (fun b => b == 90) 58 _ (by decide),
      findIdx_step (fun b => b == 90) (48 + S / 10) _ (beq90_digit _ (by omega)),
      findIdx_step (fun b => b == 90) (48 + S % 10) _ (beq90_digit _ (by omega)),
      findIdx_step (fun b => b == 90) 46 _ (by decide),
      findIdx_step (fun b => b == 90) (48 + F / 100000) _ (beq90_digit _ (by omega)),
      findIdx_step (fun b => b == 90) (48 + F / 10000 % 10) _ (beq90_digit _ (by omega)),
      findIdx_step (fun b => b == 90) (48 + F / 1000 % 10) _ (beq90_digit _ (by omega)),
      findIdx_step (fun b => b == 90) (48 + F / 100 % 10) _ (beq90_digit _ (by omega)),
      findIdx_step (fun b => b == 90) (48 + F / 10 % 10) _ (beq90_digit _ (by omega)),
      findIdx_step (fun b => b == 90) (48 + F % 10) _ (beq90_digit _ (by omega)),
      findIdx_hit (fun b => b == 90) 90 _ (by decide)]
    rfl
  have hmonth : ¬(M < 1 ∨ 12 < M) := by omega
  have hclock : ¬(23 < H ∨ 59 < Mi ∨ 60 < S) := by omega
  have hday : ¬(D < 1 ∨ (if M = 4 ∨ M = 6 ∨ M = 9 ∨ M = 11 then 30
      else if M = 2 then (if is_leap (Y : Int) then 29 else 28) else 31) < D) := by
    push_neg
    exact ⟨by omega, hD⟩
  have hdot : ¬(L.getD 19 0 ≠ 46) := fun hc => hc hgetD19
  have hnonneg : ¬(date_to_days (Y : Int) M D < 0) := not_lt.mpr hdays
  unfold parse_iso_strict
  rw [if_neg h20, if_neg (not_not_intro hsep)]
  simp only [hs1, hp1, hs2, hp2, hs3, hp3, hs4, hp4, hs5, hp5, hs6, hp6,
    if_neg hmonth, if_neg hclock, if_neg hday, if_pos h20', if_neg hdot,
    hfind, Option.getD_some, hs7, hfrac, if_neg hnonneg]

/-- Parsing the formatter's output returns exactly the identifier's
microsecond timestamp. -/
theorem parse_to_iso (u : MicroShardUUID) :
    parse_iso_strict u.to_iso_string = some (.ok u.timestamp_micros) := by
  have hx : u.timestamp_micros ≤ 2^54 - 1 := timestamp_le_max u
  have hsec : u.timestamp_micros / 1000000 ≤ 18014398509 := by omega
  obtain ⟨Y, M, D, htup, hY1, hY2, hM1, hM12, hD1, hDub, hdd⟩ :=
    unix_to_civil_spec (u.timestamp_micros / 1000000) hsec
  unfold MicroShardUUID.to_iso_string
  simp only [htup]
  rw [Int.toNat_natCast]
  rw [parse_iso_pattern Y M D (u.timestamp_micros / 1000000 % 86400 / 3600)
        (u.timestamp_micros / 1000000 % 86400 % 3600 / 60)
        (u.timestamp_micros / 1000000 % 86400 % 60) (u.timestamp_micros % 1000000)
        (by omega) (by omega) hM1 hM12 hD1 hDub (by omega) (by omega) (by omega) (by omega)
        (by rw [hdd]; exact Int.natCast_nonneg _)]
  rw [hdd, Int.toNat_natCast]
  simp only [Option.some.injEq, Except.ok.injEq]
  omega


/-- Direction 2 of the calendar inverse: a valid civil date in the supported
range is reproduced exactly by `unix_to_civil` after `date_to_days`. -/
theorem date_to_days_inverse (Y M D : Nat)
    (hY1 : 1970 ≤ Y) (hY2 : Y ≤ 2540) (hM1 : 1 ≤ M) (hM12 : M ≤ 12) (hD1 : 1 ≤ D)
    (hD : D ≤ (if M = 4 ∨ M = 6 ∨ M = 9 ∨ M = 11 then 30
               else if M = 2 then (if is_leap (Y : Int) then 29 else 28) else 31)) :
    0 ≤ date_to_days (Y : Int) M D ∧
    unix_to_civil ((date_to_days (Y : Int) M D).toNat * 86400) =
      ((Y : Int), M, D, 0, 0, 0) := by
  obtain ⟨bit, hbit⟩ : ∃ t, (if M ≤ 2 then (1 : Nat) else 0) = t := ⟨_, rfl⟩
  obtain ⟨mp, hmp⟩ : ∃ t, (if 3 ≤ M then M - 3 else M + 9) = t := ⟨_, rfl⟩
  obtain ⟨era, hera⟩ : ∃ t, (Y - bit) / 400 = t := ⟨_, rfl⟩
  obtain ⟨yoe, hyoe⟩ : ∃ t, (Y - bit) % 400 = t := ⟨_, rfl⟩
  obtain ⟨doy, hdoy⟩ : ∃ t, marchStart mp + (D - 1) = t := ⟨_, rfl⟩
  have hbitM : (M ≤ 2 ∧ bit = 1) ∨ (3 ≤ M ∧ bit = 0) := by
    rw [← hbit]
    by_cases h : M ≤ 2
    · exact Or.inl ⟨h, by rw [if_pos h]⟩
    · exact Or.inr ⟨by omega, by rw [if_neg h]⟩
  have hmpM : (3 ≤ M ∧ mp = M - 3) ∨ (M ≤ 2 ∧ mp = M + 9) := by
    rw [← hmp]
    by_cases h : 3 ≤ M
    · exact Or.inl ⟨h, by rw [if_pos h]⟩
    · exact Or.inr ⟨by omega, by rw [if_neg h]⟩
  have hmp12 : mp < 12 := by omega
  have h400 : yoe < 400 := by omega
  have hsplit : 400 * era + yoe = Y - bit := by omega
  have hera4 : 4 ≤ era := by omega
  have hD31 : D ≤ 31 := by
    by_cases h1 : M = 4 ∨ M = 6 ∨ M = 9 ∨ M = 11
    · rw [if_pos h1] at hD
      omega
    · rw [if_neg h1] at hD
      by_cases h2 : M = 2
      · rw [if_pos h2] at hD
        split_ifs at hD <;> omega
      · rw [if_neg h2] at hD
        omega
  have hmarchlow : marchStart mp ≤ doy := by omega
  have hspan : doy < marchStart (mp + 1) := by
    rcases hmpM with ⟨h3, hmpv⟩ | ⟨h2, hmpv⟩
    · by_cases h3031 : M = 4 ∨ M = 6 ∨ M = 9 ∨ M = 11
      · rw [if_pos h3031] at hD
        unfold marchStart at hdoy ⊢
        omega
      · have hmpset : mp = 0 ∨ mp = 2 ∨ mp = 4 ∨ mp = 5 ∨ mp = 7 ∨ mp = 9 := by omega
        rcases hmpset with rfl | rfl | rfl | rfl | rfl | rfl <;>
          (unfold marchStart at hdoy ⊢; omega)
    · rcases (by omega : M = 1 ∨ M = 2) with rfl | rfl
      · obtain rfl : mp = 10 := by omega
        unfold marchStart at hdoy ⊢
        omega
      · obtain rfl : mp = 11 := by omega
        rw [if_neg (by norm_num), if_pos rfl] at hD
        have hD29 : D ≤ 29 := by split_ifs at hD <;> omega
        unfold marchStart at hdoy ⊢
        omega
  have hyear : yearStart yoe + doy < yearStart (yoe + 1) := by
    have hstep : yearStart yoe + 365 ≤ yearStart (yoe + 1) := by
      unfold yearStart
      omega
    by_cases hM2 : M = 2
    · subst hM2
      rw [if_neg (by norm_num), if_pos rfl] at hD
      obtain rfl : mp = 11 := by omega
      split_ifs at hD with hleap
      · have hYrel : Y = 400 * era + yoe + 1 := by omega
        have hl := (is_leap_natCast Y).mp hleap
        have h366 : yearStart yoe + 366 ≤ yearStart (yoe + 1) := by
          unfold yearStart
          omega
        unfold marchStart at hdoy
        omega
      · unfold marchStart at hdoy
        omega
    · have hd364 : doy ≤ 364 := by
        rcases hmpM with ⟨h3, hmpv⟩ | ⟨h2, hmpv⟩
        · unfold marchStart at hdoy
          omega
        · obtain rfl : M = 1 := by omega
          obtain rfl : mp = 10 := by omega
          unfold marchStart at hdoy
          omega
      omega
  have hdoy366 : doy < 366 := by
    have h := hyear
    unfold yearStart at h
    omega
  have hmi := month_of_interval mp doy hmp12 hmarchlow hspan
  have hmM : M = if (5 * doy + 2) / 153 < 10 then (5 * doy + 2) / 153 + 3
                 else (5 * doy + 2) / 153 - 9 := by
    rw [hmi]
    rcases hmpM with ⟨h3, hmpv⟩ | ⟨h2, hmpv⟩
    · rw [if_pos (by omega)]
      omega
    · rw [if_neg (by omega)]
      omega
  have hdD : D = doy - (153 * ((5 * doy + 2) / 153) + 2) / 5 + 1 := by
    rw [hmi, show (153 * mp + 2) / 5 = marchStart mp from rfl]
    omega
  have hYrel : Y = era * 400 + yoe + (if M ≤ 2 then 1 else 0) := by
    rw [hbit]
    omega
  obtain ⟨hdd, -, -, -, -⟩ :=
    date_to_days_era era yoe doy M D Y (by omega) h400 hyear hmM hdD hYrel
  have h369 : yearStart 369 = 134774 := by decide
  have h370 : yearStart 370 = 135139 := by decide
  have hge : 719468 ≤ era * 146097 + yearStart yoe + doy := by
    by_cases h5 : 5 ≤ era
    · omega
    · have he4 : era = 4 := by omega
      by_cases h370' : 370 ≤ yoe
      · have hms := yearStart_mono h370'
        omega
      · have h369e : yoe = 369 := by omega
        subst h369e
        have hbit1 : bit = 1 := by omega
        have hM2 : M ≤ 2 := by
          rcases hbitM with ⟨h, _⟩ | ⟨_, h0⟩
          · exact h
          · omega
        have hmp10 : 10 ≤ mp := by omega
        have hms306 : 306 ≤ marchStart mp := by
          unfold marchStart
          omega
        omega
  have htn : (date_to_days (Y : Int) M D).toNat =
      era * 146097 + yearStart yoe + doy - 719468 := by
    rw [hdd]
    omega
  refine ⟨by rw [hdd]; omega, ?_⟩
  rw [htn]
  obtain ⟨era', yoe', doy', he', hy', hd', hyoelt', hlow', hhigh', htup'⟩ :=
    unix_to_civil_parts ((era * 146097 + yearStart yoe + doy - 719468) * 86400)
  have hdoelt : yearStart yoe + doy < 146097 := by
    unfold yearStart
    omega
  have hdoee : (era * 146097 + yearStart yoe + doy - 719468) * 86400 / 86400 + 719468 =
      146097 * era + (yearStart yoe + doy) := by omega
  have herae : era' = era := by
    rw [he']
    omega
  have hdoemod : ((era * 146097 + yearStart yoe + doy - 719468) * 86400 / 86400 + 719468) %
      146097 = yearStart yoe + doy := by omega
  have hyoee : yoe' = yoe := by
    rw [hy', hdoemod]
    exact yoeOf_eq yoe _ h400 (by omega) hyear
  have hdoye : doy' = doy := by
    rw [hd', hdoemod, hyoee]
    omega
  rw [htup', hdoye, hyoee, herae, ← hmM, ← hdD, hbit,
      show era * 400 + yoe + bit = Y from by omega,
      show (era * 146097 + yearStart yoe + doy - 719468) * 86400 % 86400 = 0 from by omega]


/-! ## Claims C2, C4, C5 -/

/-- **C2**: for every microsecond value in `[0, 2^54-1]`, parsing the ISO string
rendered for it returns exactly that value; `unix_to_civil` and `date_to_days`
are exact mutual inverses over the whole supported range (day counts up to the
54-bit limit in one direction, civil dates from 1970 through 2540 in the
other); and the concrete input without a fractional part re-formats with a
`.000000` suffix. -/
theorem iso_roundtrip_exact :
    (∀ x : Nat, x ≤ MAX_TIME_MICROS → ∀ u : MicroShardUUID, u.timestamp_micros = x →
        parse_iso_strict u.to_iso_string = some (.ok x)) ∧
    (∀ ts : Nat, ts ≤ 18014398509 →
        date_to_days (unix_to_civil ts).1 (unix_to_civil ts).2.1 (unix_to_civil ts).2.2.1 =
          ((ts / 86400 : Nat) : Int)) ∧
    (∀ Y M D : Nat, 1970 ≤ Y → Y ≤ 2540 → 1 ≤ M → M ≤ 12 → 1 ≤ D →
        D ≤ (if M = 4 ∨ M = 6 ∨ M = 9 ∨ M = 11 then 30
             else if M = 2 then (if is_leap (Y : Int) then 29 else 28) else 31) →
        0 ≤ date_to_days (Y : Int) M D ∧
        unix_to_civil ((date_to_days (Y : Int) M D).toNat * 86400) =
          ((Y : Int), M, D, 0, 0, 0)) ∧
    parse_iso_strict [50, 48, 50, 51, 45, 48, 49, 45, 48, 49, 84, 49, 50, 58, 48, 48,
        58, 48, 48, 90] = some (.ok 1672574400000000) ∧
    (MicroShardUUID.mk (packVal 1672574400000000 0 0)).to_iso_string =
      [50, 48, 50, 51, 45, 48, 49, 45, 48, 49, 84, 49, 50, 58, 48, 48, 58, 48, 48, 46,
       48, 48, 48, 48, 48, 48, 90] := by
  refine ⟨?_, ?_, ?_, rfl, rfl⟩
  · intro x hx u hu
    rw [← hu]
    exact parse_to_iso u
  · intro ts hts
    obtain ⟨Y, M, D, htup, -, -, -, -, -, -, hdd⟩ := unix_to_civil_spec ts hts
    rw [htup]
    exact hdd
  · intro Y M D h1 h2 h3 h4 h5 h6
    exact date_to_days_inverse Y M D h1 h2 h3 h4 h5 h6

theorem iso_roundtrip_exact_witness :
    1765503300123456 ≤ MAX_TIME_MICROS ∧
    parse_iso_strict
        (MicroShardUUID.mk (packVal 1765503300123456 12345 987654321)).to_iso_string =
      some (.ok 1765503300123456) :=
  ⟨by norm_num [MAX_TIME_MICROS],
   iso_roundtrip_exact.1 1765503300123456 (by norm_num [MAX_TIME_MICROS]) _
     (timestamp_packVal 1765503300123456 12345 987654321 (by norm_num [MAX_TIME_MICROS]))⟩

/-- **C4** (amended): `parse_iso_strict` rejects inputs shorter than 20 bytes
and inputs with a wrong separator at offsets 4, 7, 10, 13, 16; it accepts a
well-formed `YYYY-MM-DDTHH:MM:SS.ffffffZ` rendering exactly when its fields
are in range (4-digit year, month 1-12, hour ≤ 23, minute ≤ 59, second ≤ 60,
day valid for the month/year) *and* the date is not before the Unix epoch
(`date_to_days ≥ 0`): well-formed pre-1970 renderings such as
`"1950-01-01T00:00:00Z"` and `"1969-12-31T23:59:59Z"` are rejected with
`InvalidIsoFormat` by the `days_since_epoch < 0` check.  It rejects
out-of-range months, hours, minutes, seconds, invalid days (Feb 29 in a
non-leap year) and non-digit group characters; but, contrary to the claim's
only-if direction, byte 19 of a 20-byte input is never examined (a missing
terminal `Z` is accepted), a numeric group may carry a leading `+` sign, and
everything after the first `Z` is ignored rather than rejected. -/
theorem parse_iso_acceptance_amended :
    (∀ s : List Nat, s.length < 20 → parse_iso_strict s = some (.error .InvalidIsoFormat)) ∧
    (∀ s : List Nat, 20 ≤ s.length →
        ¬(s.getD 4 0 = 45 ∧ s.getD 7 0 = 45 ∧ s.getD 10 0 = 84 ∧
          s.getD 13 0 = 58 ∧ s.getD 16 0 = 58) →
        parse_iso_strict s = some (.error .InvalidIsoFormat)) ∧
    (∀ Y M D H Mi S F : Nat, 1000 ≤ Y → Y ≤ 9999 → 1 ≤ M → M ≤ 12 → 1 ≤ D →
        D ≤ (if M = 4 ∨ M = 6 ∨ M = 9 ∨ M = 11 then 30
             else if M = 2 then (if is_leap (Y : Int) then 29 else 28) else 31) →
        H ≤ 23 → Mi ≤ 59 → S ≤ 60 → F < 1000000 → 0 ≤ date_to_days (Y : Int) M D →
        parse_iso_strict (padNum 4 Y ++ [45] ++ padNum 2 M ++ [45] ++ padNum 2 D ++ [84] ++
            padNum 2 H ++ [58] ++ padNum 2 Mi ++ [58] ++ padNum 2 S ++ [46] ++
            padNum 6 F ++ [90]) =
          some (.ok (((date_to_days (Y : Int) M D).toNat * 86400 +
                        H * 3600 + Mi * 60 + S) * 1000000 + F))) ∧
    parse_iso_strict [50, 48, 50, 51, 45, 49, 51, 45, 48, 49, 84, 48, 48, 58, 48, 48,
        58, 48, 48, 90] = some (.error .InvalidIsoFormat) ∧
    parse_iso_strict [50, 48, 50, 51, 45, 48, 49, 45, 48, 49, 84, 50, 52, 58, 48, 48,
        58, 48, 48, 90] = some (.error .InvalidIsoFormat) ∧
    parse_iso_strict [50, 48, 50, 51, 45, 48, 49, 45, 48, 49, 84, 48, 48, 58, 54, 48,
        58, 48, 48, 90] = some (.error .InvalidIsoFormat) ∧
    parse_iso_strict [50, 48, 50, 51, 45, 48, 49, 45, 48, 49, 84, 48, 48, 58, 48, 48,
        58, 54, 49, 90] = some (.error .InvalidIsoFormat) ∧
    parse_iso_strict [50, 48, 50, 51, 45, 48, 50, 45, 50, 57, 84, 48, 48, 58, 48, 48,
        58, 48, 48, 90] = some (.error .InvalidIsoFormat) ∧
    parse_iso_strict [50, 48, 50, 51, 45, 48, 97, 45, 48, 49, 84, 48, 48, 58, 48, 48,
        58, 48, 48, 90] = some (.error .InvalidIsoFormat) ∧
    parse_iso_strict [49, 57, 53, 48, 45, 48, 49, 45, 48, 49, 84, 48, 48, 58, 48, 48,
        58, 48, 48, 90] = some (.error .InvalidIsoFormat) ∧
    parse_iso_strict [49, 57, 54, 57, 45, 49, 50, 45, 51, 49, 84, 50, 51, 58, 53, 57,
        58, 53, 57, 90] = some (.error .InvalidIsoFormat) ∧
    parse_iso_strict [50, 48, 50, 51, 45, 48, 49, 45, 48, 49, 84, 49, 50, 58, 48, 48,
        58, 48, 48, 65] = some (.ok 1672574400000000) ∧
    parse_iso_strict [50, 48, 50, 51, 45, 48, 49, 45, 48, 49, 84, 49, 50, 58, 48, 48,
        58, 43, 53, 90] = some (.ok 1672574405000000) ∧
    parse_iso_strict [50, 48, 50, 51, 45, 48, 49, 45, 48, 49, 84, 49, 50, 58, 48, 48,
        58, 48, 48, 46, 53, 90, 106, 117, 110, 107] = some (.ok 1672574400500000) := by
  refine ⟨?_, ?_, ?_, rfl, rfl, rfl, rfl, rfl, rfl, rfl, rfl, rfl, rfl, rfl⟩
  · intro s h
    unfold parse_iso_strict
    rw [if_pos h]
  · intro s h1 h2
    unfold parse_iso_strict
    rw [if_neg (by omega), if_pos h2]
  · intro Y M D H Mi S F h1 h2 h3 h4 h5 h6 h7 h8 h9 h10 h11
    exact parse_iso_pattern Y M D H Mi S F h1 h2 h3 h4 h5 h6 h7 h8 h9 h10 h11

theorem parse_iso_acceptance_amended_witness :
    ([] : List Nat).length < 20 ∧
    parse_iso_strict [] = some (.error .InvalidIsoFormat) :=
  ⟨by decide, parse_iso_acceptance_amended.1 [] (by decide)⟩

/-- **C4** counterexample: the 20-byte input `"2023-01-01T12:00:00A"` does not
end in `Z`, yet `parse_iso_strict` accepts it — byte 19 of a 20-byte input is
never examined, refuting the claimed if-and-only-if. -/
theorem parse_iso_missing_terminal_z_accepted :
    [50, 48, 50, 51, 45, 48, 49, 45, 48, 49, 84, 49, 50, 58, 48, 48, 58, 48, 48,
      65].getD 19 0 ≠ 90 ∧
    parse_iso_strict [50, 48, 50, 51, 45, 48, 49, 45, 48, 49, 84, 49, 50, 58, 48, 48,
        58, 48, 48, 65] = some (.ok 1672574400000000) := by
  exact ⟨by decide, rfl⟩

/-- **C5** is refuted: on the 20-byte UTF-8 input `"2023-01-01T12:00:0é"`
(the two-byte character `é` spans byte offsets 18-19), the slice `&s[17..19]`
taken by `parse_iso_strict` ends inside the character, which panics in Rust —
modelled here as `none` — instead of returning a typed error, so `from_iso`
diverges rather than returning `Ok` or a `MicroShardError`. -/
theorem parse_iso_panics_on_non_ascii :
    parse_iso_strict [50, 48, 50, 51, 45, 48, 49, 45, 48, 49, 84, 49, 50, 58, 48, 48,
        58, 48, 195, 169] = none ∧
    from_iso [50, 48, 50, 51, 45, 48, 49, 45, 48, 49, 84, 49, 50, 58, 48, 48,
        58, 48, 195, 169] 0 0 = none := by
  exact ⟨rfl, rfl⟩

end MicroShard
